/- Formal model of the MiniMax adaptive-exploration core:
   the trajectory graph (`src/trajectory_graph.py`), the pruning strategies and
   manager (`src/pruning.py`), and the uncertainty estimator (`src/uncertainty.py`).

   Conventions of the embedding:
   * Python dicts that are used as ordered tables (`nodes`, `edges`, `adjacency`,
     `observation_to_state`, vote `candidates`) are association lists in insertion
     order; `dict.get(k, d)` is `List.lookup` with a default.
   * Python sets whose iteration order is irrelevant (the `prunable` and `pruned`
     accumulators) are `Finset ℕ`.
   * Machine floats are modelled exactly: `ℚ` for weights/ratios, `ℝ` where
     logarithms occur (entropy).
   * The SHA-256 digest in `get_state_hash` is applied to a canonical
     serialization string; the digest step is modelled as the identity on that
     string (an injective digest), so equality of modelled hashes is equality of
     the serialized content.
   * `raise ValueError(msg)` is modelled as returning `Except.error msg` together
     with the unmodified structure. -/
import Mathlib

/-! ## Observation payloads and Python's `json.dumps(..., sort_keys=True)` -/

/-- A JSON-like observation payload as accepted by
`TrajectoryGraph.get_state_hash` (string, number, bool, null, list or dict). -/
inductive Obs where
  | str (s : String)
  | num (n : Int)
  | bool (b : Bool)
  | null
  | list (xs : List Obs)
  | dict (fields : List (String × Obs))

/-- Hex digit used by JSON `\uXXXX` escapes (lowercase, as CPython emits). -/
def hexDigit (n : ℕ) : Char :=
  if n < 10 then Char.ofNat (48 + n) else Char.ofNat (87 + n)

/-- Four-hex-digit `\uXXXX` escape. -/
def uEscape (n : ℕ) : String :=
  "\\u" ++ String.mk [hexDigit (n / 4096 % 16), hexDigit (n / 256 % 16),
    hexDigit (n / 16 % 16), hexDigit (n % 16)]

/-- Escape of a single character inside a JSON string literal, following
CPython's `json` encoder with `ensure_ascii=True`: quote and backslash get a
backslash escape, the five classic control characters get their short escapes,
remaining characters outside `0x20..0x7e` get `\uXXXX` escapes (with UTF-16
surrogate pairs above `0xffff`). -/
def jsonEscapeChar (c : Char) : String :=
  if c = '"' then "\\\""
  else if c = '\\' then "\\\\"
  else if c.toNat = 8 then "\\b"
  else if c.toNat = 9 then "\\t"
  else if c.toNat = 10 then "\\n"
  else if c.toNat = 12 then "\\f"
  else if c.toNat = 13 then "\\r"
  else if c.toNat < 32 then uEscape c.toNat
  else if c.toNat ≤ 126 then String.singleton c
  else if c.toNat ≤ 65535 then uEscape c.toNat
  else uEscape (55296 + (c.toNat - 65536) / 1024) ++ uEscape (56320 + (c.toNat - 65536) % 1024)

/-- A JSON string literal: quoted, escaped content. -/
def jsonQuote (s : String) : String :=
  "\"" ++ String.join (s.data.map jsonEscapeChar) ++ "\""

/-- Key ordering used by `sort_keys=True`: lexicographic comparison of the key
strings (Python compares `str` by code points, as Lean's `String` order does). -/
def keyLe (a b : String × Obs) : Prop := a.1 ≤ b.1

instance : DecidableRel keyLe := fun a b => inferInstanceAs (Decidable (a.1 ≤ b.1))

instance : IsTotal (String × Obs) keyLe := ⟨fun a b => le_total a.1 b.1⟩

instance : IsTrans (String × Obs) keyLe := ⟨fun _ _ _ h h' => le_trans h h'⟩

/-- The items of a dict sorted by key, as `sort_keys=True` does.  (Python's
sort is stable; real Python dicts have pairwise-distinct keys, so any sorted
rearrangement by key is the same list and stability is immaterial.) -/
def sortFields (fs : List (String × Obs)) : List (String × Obs) :=
  List.insertionSort keyLe fs

theorem sizeOf_lt_of_mem_sortFields {kv : String × Obs} {fs : List (String × Obs)}
    (h : kv ∈ sortFields fs) : sizeOf kv < 1 + sizeOf fs := by
  have : kv ∈ fs := (List.perm_insertionSort keyLe fs).mem_iff.mp h
  have := List.sizeOf_lt_of_mem this
  omega

/-- Python's `json.dumps(v, sort_keys=True)` with the default separators
`", "` and `": "`:  ints print in decimal, booleans as `true`/`false`, `None`
as `null`, strings quoted and escaped, lists bracketed and comma-separated,
dicts braced with keys sorted, quoted and followed by `": "`. -/
def pyJsonDumps : Obs → String
  | .str s => jsonQuote s
  | .num n => toString n
  | .bool b => if b then "true" else "false"
  | .null => "null"
  | .list xs => "[" ++ String.intercalate ", "
      (xs.attach.map fun x => pyJsonDumps x.1) ++ "]"
  | .dict fs => "\x7b" ++ String.intercalate ", "
      ((sortFields fs).attach.map fun kv => jsonQuote kv.1.1 ++ ": " ++ pyJsonDumps kv.1.2)
      ++ "\x7d"
termination_by o => sizeOf o
decreasing_by
  · have := List.sizeOf_lt_of_mem x.2
    simp only [Obs.list.sizeOf_spec]
    omega
  · have h1 := sizeOf_lt_of_mem_sortFields kv.2
    have h2 : sizeOf kv.1.2 < sizeOf kv.1 := by
      obtain ⟨a, b⟩ := kv.1
      simp only [Prod.mk.sizeOf_spec]
      omega
    simp only [Obs.dict.sizeOf_spec]
    omega

/-! ## The trajectory graph (`src/trajectory_graph.py`) -/

/-- A state node (`GraphNode`).  `metadata` and `timestamp` are audit-only
fields never read by any algorithm and are omitted from the model. -/
structure GraphNode where
  state_id : ℕ
  observation_hash : String
  action : String
  observation_data : Obs
  is_pruned : Bool := false

/-- A transition edge (`GraphEdge`).  `metadata` is audit-only and omitted. -/
structure GraphEdge where
  edge_id : ℕ
  source : ℕ
  target : ℕ
  weight : ℚ := 1
  success : Bool := true
  action : String := ""

deriving instance DecidableEq for GraphEdge

/-- The trajectory graph.  All Python dict fields are association lists in
insertion order. -/
structure TrajectoryGraph where
  nodes : List GraphNode
  edges : List GraphEdge
  adjacency : List (ℕ × List ℕ)
  reverse_adjacency : List (ℕ × List ℕ)
  observation_to_state : List (String × ℕ)
  root_state_id : Option ℕ := none
  next_node_id : ℕ := 0
  next_edge_id : ℕ := 0

namespace TrajectoryGraph

/-- The empty graph produced by `TrajectoryGraph.__init__`. -/
def empty : TrajectoryGraph :=
  { nodes := [], edges := [], adjacency := [], reverse_adjacency := [],
    observation_to_state := [] }

/-- Lookup of `self.nodes[state_id]` (dict keyed by `state_id`). -/
def findNode (g : TrajectoryGraph) (sid : ℕ) : Option GraphNode :=
  g.nodes.find? (fun n => n.state_id == sid)

/-- Python's `state_id in self.nodes`. -/
def hasNode (g : TrajectoryGraph) (sid : ℕ) : Bool :=
  (g.findNode sid).isSome

/-- Lookup of `self.edges[edge_id]`. -/
def findEdge (g : TrajectoryGraph) (eid : ℕ) : Option GraphEdge :=
  g.edges.find? (fun e => e.edge_id == eid)

/-- Python's `self.adjacency.get(state_id, [])`. -/
def adj (g : TrajectoryGraph) (sid : ℕ) : List ℕ :=
  (g.adjacency.lookup sid).getD []

/-- Python's `self.reverse_adjacency.get(state_id, [])`. -/
def radj (g : TrajectoryGraph) (sid : ℕ) : List ℕ :=
  (g.reverse_adjacency.lookup sid).getD []

/-- Append a value to the list stored at a key of an association list
(`self.adjacency[k].append(v)`; the key is always present in well-formed
graphs). -/
def assocAppend (l : List (ℕ × List ℕ)) (k : ℕ) (v : ℕ) : List (ℕ × List ℕ) :=
  l.map fun e => if e.1 = k then (e.1, e.2 ++ [v]) else e

/-- The canonical hash of `TrajectoryGraph.get_state_hash`: strings are hashed
directly, anything else via `json.dumps(observation, sort_keys=True)`.  The
SHA-256 digest applied to the resulting string is modelled as the identity
(an injective digest), so the modelled hash is the string itself. -/
def get_state_hash (observation : Obs) : String :=
  match observation with
  | .str s => s
  | o => pyJsonDumps o

/-- The body of `TrajectoryGraph.add_state`: dedup via `observation_to_state`,
else allocate `next_node_id`, register the node, its (empty) adjacency rows and
its hash, and set the root if this is the first node. -/
def add_state (g : TrajectoryGraph) (observation : Obs) (action : String) :
    TrajectoryGraph × ℕ :=
  let obs_hash := get_state_hash observation
  match g.observation_to_state.lookup obs_hash with
  | some sid => (g, sid)
  | none =>
    let state_id := g.next_node_id
    let node : GraphNode :=
      { state_id := state_id, observation_hash := obs_hash, action := action,
        observation_data := observation }
    ({ g with
        nodes := g.nodes ++ [node],
        adjacency := g.adjacency ++ [(state_id, [])],
        reverse_adjacency := g.reverse_adjacency ++ [(state_id, [])],
        observation_to_state := g.observation_to_state ++ [(obs_hash, state_id)],
        next_node_id := state_id + 1,
        root_state_id := match g.root_state_id with
          | none => some state_id
          | some r => some r },
      state_id)

/-- The body of `TrajectoryGraph.add_edge`.  The two existence checks precede
every mutation, so on failure the graph is returned unchanged together with the
`ValueError` message. -/
def add_edge (g : TrajectoryGraph) (from_state to_state : ℕ) (weight : ℚ := 1)
    (success : Bool := true) (action : String := "") :
    TrajectoryGraph × Except String ℕ :=
  if ¬ g.hasNode from_state then
    (g, .error s!"Source state {from_state} does not exist")
  else if ¬ g.hasNode to_state then
    (g, .error s!"Target state {to_state} does not exist")
  else
    let edge_id := g.next_edge_id
    let edge : GraphEdge :=
      { edge_id := edge_id, source := from_state, target := to_state,
        weight := weight, success := success, action := action }
    ({ g with
        edges := g.edges ++ [edge],
        adjacency := assocAppend g.adjacency from_state edge_id,
        reverse_adjacency := assocAppend g.reverse_adjacency to_state edge_id,
        next_edge_id := edge_id + 1 },
      .ok edge_id)

end TrajectoryGraph

namespace TrajectoryGraph

/-- Python's `self.edges[edge_id].success` (well-formed graphs always contain
the looked-up edge; on a missing id Python would raise `KeyError`). -/
def edgeSuccessD (g : TrajectoryGraph) (eid : ℕ) : Bool :=
  ((g.findEdge eid).map (fun e => e.success)).getD true

/-- Python's `self.nodes[state_id].is_pruned` guarded by membership. -/
def isPrunedD (g : TrajectoryGraph) (sid : ℕ) : Bool :=
  ((g.findNode sid).map (fun n => n.is_pruned)).getD false

/-- The recursive `dfs` of `TrajectoryGraph.detect_cycles`.  `visited` and
`cycles` are threaded through (they are shared mutable state in the source);
`rec_stack` and `path` are passed down only, because the source restores them
(`path.pop()`, `rec_stack.remove(...)`) before returning.  On meeting a
neighbor already on the recursion stack the source emits
`path[path.index(neighbor):] + [neighbor]`.  The fuel only bounds the nesting
depth of the recursion; it never runs out when the caller supplies
`nodes + edges + 1` because the state ids of the active nested calls are
pairwise distinct (each call adds its id to `visited` and recursion is guarded
by non-membership). -/
def dfsCycles (g : TrajectoryGraph) :
    ℕ → ℕ → List ℕ → List ℕ → List ℕ → List (List ℕ) → List ℕ × List (List ℕ)
  | 0, _, visited, _, _, cycles => (visited, cycles)
  | fuel + 1, state_id, visited, rec_stack, path, cycles =>
    let visited := visited ++ [state_id]
    let rec_stack := rec_stack ++ [state_id]
    let path := path ++ [state_id]
    (g.adj state_id).foldl
      (fun acc eid =>
        match g.findEdge eid with
        | none => acc
        | some edge =>
          let neighbor := edge.target
          if neighbor ∉ acc.1 then
            dfsCycles g fuel neighbor acc.1 rec_stack path acc.2
          else if neighbor ∈ rec_stack then
            (acc.1, acc.2 ++ [path.drop (path.indexOf neighbor) ++ [neighbor]])
          else acc)
      (visited, cycles)

/-- `TrajectoryGraph.detect_cycles`: run the DFS from every not-yet-visited
node, in node insertion order. -/
def detect_cycles (g : TrajectoryGraph) : List (List ℕ) :=
  ((g.nodes.map (fun n => n.state_id)).foldl
    (fun acc state_id =>
      if state_id ∉ acc.1 then
        dfsCycles g (g.nodes.length + g.edges.length + 1) state_id acc.1 [] [] acc.2
      else acc)
    ([], [])).2

/-- The union of all cycle-member sets used by `get_prunable_branches`
(each cycle contributes `cycle[:-1]`, excluding the repeated closing id). -/
def cycleNodes (g : TrajectoryGraph) : Finset ℕ :=
  (g.detect_cycles).foldl (fun s c => s ∪ c.dropLast.toFinset) ∅

/-- `TrajectoryGraph.get_prunable_branches`.  The first loop adds, per
non-pruned node, leaves and all-outgoing-failed nodes to the `prunable` set;
the second loop ranges over the members of detected cycles (a Python set whose
iteration order is irrelevant because the loop only inserts — modelled as a
filter) and adds those existing, non-pruned members that have no successful
outgoing edge leaving `cycle_nodes`.  The returned Python `list(prunable)` has
arbitrary order and is modelled as the set itself. -/
def get_prunable_branches (g : TrajectoryGraph) : Finset ℕ :=
  let prunable : Finset ℕ :=
    g.nodes.foldl
      (fun pr node =>
        if node.is_pruned then pr
        else if g.adj node.state_id = [] then insert node.state_id pr
        else if (g.adj node.state_id).all (fun eid => !(g.edgeSuccessD eid)) then
          insert node.state_id pr
        else pr)
      ∅
  let cycle_nodes := g.cycleNodes
  prunable ∪ cycle_nodes.filter (fun state_id =>
    g.hasNode state_id ∧ ¬ g.isPrunedD state_id ∧
    ¬ (g.adj state_id).any (fun eid =>
        match g.findEdge eid with
        | some edge => decide (edge.target ∉ cycle_nodes) && edge.success
        | none => false))

/-- Set `self.nodes[sid].is_pruned = True`. -/
def markPruned (g : TrajectoryGraph) (sid : ℕ) : TrajectoryGraph :=
  { g with nodes := g.nodes.map fun n =>
      if n.state_id = sid then { n with is_pruned := true } else n }

/-- The recursive `prune_recursive` of `TrajectoryGraph.prune_branch`:
return if `sid` is already in this call's `pruned` set or absent from the node
table, else mark it pruned, add it to the set and recurse into all edge
targets.  The graph and the accumulated set are threaded; the fuel only bounds
the nesting depth and never runs out when the caller supplies `nodes + 1`,
because each active nested call has put its (existing, pairwise distinct)
state id into `pruned` before recursing. -/
def pruneRec : ℕ → TrajectoryGraph → ℕ → Finset ℕ → TrajectoryGraph × Finset ℕ
  | 0, g, _, pruned => (g, pruned)
  | fuel + 1, g, sid, pruned =>
    if sid ∈ pruned ∨ ¬ g.hasNode sid then (g, pruned)
    else
      let g' := g.markPruned sid
      let pruned' := insert sid pruned
      (g'.adj sid).foldl
        (fun acc eid =>
          match acc.1.findEdge eid with
          | none => acc
          | some edge => pruneRec fuel acc.1 edge.target acc.2)
        (g', pruned')

/-- `TrajectoryGraph.prune_branch`: `ValueError` (graph unchanged) on an
unknown state, else the recursive marking starting from an empty local
`pruned` set. -/
def prune_branch (g : TrajectoryGraph) (state_id : ℕ) :
    TrajectoryGraph × Except String (Finset ℕ) :=
  if ¬ g.hasNode state_id then
    (g, .error s!"State {state_id} does not exist")
  else
    let r := pruneRec (g.nodes.length + 1) g state_id ∅
    (r.1, .ok r.2)

/-- Well-formedness invariants maintained by the `TrajectoryGraph` operations:
distinct node ids below the id counter, distinct edge ids below the edge
counter with both endpoints present, adjacency rows keyed by distinct existing
nodes and listing genuine outgoing edge ids, one adjacency row per node, and a
dedup index with distinct target ids below the id counter. -/
def WF (g : TrajectoryGraph) : Prop :=
  (g.nodes.map (fun n => n.state_id)).Nodup ∧
  (∀ n ∈ g.nodes, n.state_id < g.next_node_id) ∧
  (g.edges.map (fun e => e.edge_id)).Nodup ∧
  (∀ e ∈ g.edges, e.edge_id < g.next_edge_id ∧ g.hasNode e.source ∧ g.hasNode e.target) ∧
  (g.adjacency.map Prod.fst).Nodup ∧
  (∀ p ∈ g.adjacency, g.hasNode p.1 ∧
    ∀ eid ∈ p.2, ∃ e ∈ g.edges, e.edge_id = eid ∧ e.source = p.1) ∧
  (∀ n ∈ g.nodes, ∃ p ∈ g.adjacency, p.1 = n.state_id) ∧
  (g.observation_to_state.map Prod.snd).Nodup ∧
  (∀ q ∈ g.observation_to_state, q.2 < g.next_node_id)

instance (g : TrajectoryGraph) : Decidable g.WF := by
  unfold WF; infer_instance

end TrajectoryGraph

namespace TrajectoryGraph

/-- One traversal step of `prune_recursive` and of the DFS: an outgoing edge
listed in the adjacency row of `a` whose edge record targets `b`. -/
def Step (g : TrajectoryGraph) (a b : ℕ) : Prop :=
  ∃ eid ∈ g.adj a, ∃ e, g.findEdge eid = some e ∧ e.target = b

/-- Reachability along outgoing edges (any number of steps, regardless of
edge success). -/
def Reach (g : TrajectoryGraph) : ℕ → ℕ → Prop :=
  Relation.ReflTransGen (g.Step)

/-- Reachability through existing nodes all avoiding the set `V` (the
accumulator-relative reachability computed by `prune_recursive`). -/
inductive ReachAvoid (g : TrajectoryGraph) (V : Finset ℕ) : ℕ → ℕ → Prop where
  | refl (s : ℕ) (hs : g.hasNode s = true) (hv : s ∉ V) : ReachAvoid g V s s
  | tail {s b c : ℕ} : ReachAvoid g V s b → g.Step b c → g.hasNode c = true →
      c ∉ V → ReachAvoid g V s c

/-- The graph with the pruned flag switched on for exactly the node ids in
`S` (and everything else untouched): the cumulative effect of the
`markPruned` calls performed by `prune_branch`. -/
def markSet (g : TrajectoryGraph) (S : Finset ℕ) : TrajectoryGraph :=
  { g with nodes := g.nodes.map (fun n =>
      if n.state_id ∈ S then { n with is_pruned := true } else n) }

end TrajectoryGraph

/-- The two-node cycle `0 → 1 → 0` (state ids 0 and 1): node 0 is a strict
ancestor of node 1 and also reachable from it. -/
def cycleTwoGraph : TrajectoryGraph :=
  let g := (TrajectoryGraph.empty.add_state (.str "s0") "").1
  let g := (g.add_state (.str "s1") "a").1
  let g := (g.add_edge 0 1).1
  (g.add_edge 1 0).1

/-! ## The uncertainty estimator (`src/uncertainty.py`) -/

/-- A vote distribution (`VoteDistribution`): candidate actions with their
vote counts (a Python dict in insertion order) and the running total.
`observation` and `metadata` are audit-only and omitted. -/
structure VoteDistribution where
  candidates : List (String × ℕ)
  total_votes : ℕ

namespace VoteDistribution

/-- `VoteDistribution.get_probabilities` (count divided by total; empty when
there are no votes, avoiding the division). -/
def get_probabilities (v : VoteDistribution) : List (String × ℚ) :=
  if v.total_votes = 0 then []
  else v.candidates.map (fun ac => (ac.1, (ac.2 : ℚ) / v.total_votes))

/-- `VoteDistribution.get_most_common`: the candidate with the maximal count
(`max` over dict items, first maximum wins ties), `("", 0)` when empty. -/
def get_most_common (v : VoteDistribution) : String × ℕ :=
  match v.candidates with
  | [] => ("", 0)
  | c :: cs => cs.foldl (fun best ac => if best.2 < ac.2 then ac else best) c

/-- `VoteDistribution.get_confidence`: vote share of the top action, 0 when
there are no votes. -/
def get_confidence (v : VoteDistribution) : ℚ :=
  if v.total_votes = 0 then 0
  else ((v.get_most_common).2 : ℚ) / v.total_votes

/-- Well-formedness of a vote distribution as produced by repeated
`add_vote` calls: distinct candidate keys, every count positive, and the
total equal to the sum of the counts. -/
def WF (v : VoteDistribution) : Prop :=
  (v.candidates.map Prod.fst).Nodup ∧
  (∀ ac ∈ v.candidates, 0 < ac.2) ∧
  v.total_votes = (v.candidates.map Prod.snd).sum

instance (v : VoteDistribution) : Decidable v.WF := by
  unfold WF; infer_instance

end VoteDistribution

/-- `UncertaintyEstimator.compute_entropy`: Shannon entropy in bits,
`-∑ p·log2 p` over the positive probabilities, 0 when there are no votes. -/
noncomputable def compute_entropy (votes : VoteDistribution) : ℝ :=
  if votes.total_votes = 0 then 0
  else
    ((votes.get_probabilities).map (fun ap =>
      if 0 < ap.2 then -((ap.2 : ℝ) * Real.logb 2 (ap.2 : ℝ)) else 0)).sum

/-- `UncertaintyEstimator.compute_variance`: population variance of the raw
vote counts, 0 when there are no votes or at most one candidate. -/
def compute_variance (votes : VoteDistribution) : ℚ :=
  if votes.total_votes = 0 ∨ votes.candidates.length ≤ 1 then 0
  else
    let counts := votes.candidates.map (fun ac => (ac.2 : ℚ))
    let mean := counts.sum / counts.length
    ((counts.map (fun x => (x - mean) ^ 2)).sum) / counts.length

/-- The nested `for i / for j in range(i+1, n)` loops of
`compute_pairwise_disagreement`, returning `(total_pairs, disagreeing_pairs)`
over the list of individual votes. -/
def pairCounts : List String → ℕ × ℕ
  | [] => (0, 0)
  | x :: xs =>
    let rest := pairCounts xs
    (rest.1 + xs.length, rest.2 + (xs.filter (fun y => y ≠ x)).length)

/-- `UncertaintyEstimator.compute_pairwise_disagreement`: the fraction of
unordered pairs of individual vote instances that disagree; 0 when at most one
vote or at most one candidate (and when there are no pairs). -/
def compute_pairwise_disagreement (votes : VoteDistribution) : ℚ :=
  if votes.total_votes ≤ 1 then 0
  else if votes.candidates.length ≤ 1 then 0
  else
    let individual_votes :=
      votes.candidates.flatMap (fun ac => List.replicate ac.2 ac.1)
    let c := pairCounts individual_votes
    if c.1 = 0 then 0 else (c.2 : ℚ) / (c.1 : ℚ)

/-- The statistics dictionary returned by
`UncertaintyEstimator.get_uncertainty_stats`. -/
structure UncertaintyStats where
  entropy : ℝ
  normalized_entropy : ℝ
  variance : ℚ
  pairwise_disagreement : ℚ
  confidence : ℚ
  uncertainty : ℚ
  num_candidates : ℕ
  total_votes : ℕ

/-- `UncertaintyEstimator.get_uncertainty_stats`: bundle all metrics; the
entropy is normalized by `log2(num_candidates)` when there are at least two
candidates (divisor fixed at 1.0 otherwise), guarded so that a non-positive
divisor yields 0. -/
noncomputable def get_uncertainty_stats (votes : VoteDistribution) : UncertaintyStats :=
  let entropy := compute_entropy votes
  let num_candidates := votes.candidates.length
  let max_entropy : ℝ := if 1 < num_candidates then Real.logb 2 num_candidates else 1
  { entropy := entropy
    normalized_entropy := if 0 < max_entropy then entropy / max_entropy else 0
    variance := compute_variance votes
    pairwise_disagreement := compute_pairwise_disagreement votes
    confidence := votes.get_confidence
    uncertainty := 1 - votes.get_confidence
    num_candidates := num_candidates
    total_votes := votes.total_votes }

/-- Python's built-in `round`: round half to even (banker's rounding). -/
noncomputable def pythonRound (x : ℝ) : ℤ :=
  if x - ⌊x⌋ < 1 / 2 then ⌊x⌋
  else if 1 / 2 < x - ⌊x⌋ then ⌊x⌋ + 1
  else if Even ⌊x⌋ then ⌊x⌋ else ⌊x⌋ + 1

/-- `UncertaintyEstimator.get_compute_budget`: linear interpolation between
`min_samples` and `max_samples` driven by the normalized entropy, rounded with
Python's `round` (the final `int(...)` on an integral float is the identity). -/
noncomputable def get_compute_budget (stats : UncertaintyStats)
    (min_samples : ℤ := 3) (max_samples : ℤ := 20) : ℤ :=
  let uncertainty := stats.normalized_entropy
  pythonRound ((min_samples : ℝ) + ((max_samples : ℝ) - (min_samples : ℝ)) * uncertainty)

/-- `UncertaintyEstimator.should_scale_up`: scale up when the normalized
entropy or the pairwise disagreement reaches the threshold. -/
noncomputable def should_scale_up (stats : UncertaintyStats) (threshold : ℝ := 1 / 2) :
    Prop :=
  threshold ≤ stats.normalized_entropy ∨ threshold ≤ (stats.pairwise_disagreement : ℝ)

/-! ## Pruning strategies and manager (`src/pruning.py`) -/

/-- Decision context (`PruningContext`).  `metadata` is audit-only and
omitted. -/
structure PruningContext where
  task_description : String := ""
  current_step : ℕ := 0
  max_steps : ℕ := 50
  uncertainty_scores : List (ℕ × ℚ) := []
  success_history : List (ℕ × Bool) := []

/-- `PruningContext.was_successful`: look up the success history, defaulting
to `True`. -/
def PruningContext.was_successful (ctx : PruningContext) (state_id : ℕ) : Bool :=
  (ctx.success_history.lookup state_id).getD true

mutual
/-- A pruning decision (`PruningDecision`).  The wall-clock `timestamp` is not
modelled.  Fields: state id, verdict, strategy name, reason, priority,
metadata. -/
inductive PruningDecision where
  | mk (state_id : ℕ) (should_prune : Bool) (strategy_name : String)
      (reason : String) (priority : ℤ) (metadata : DecisionMeta)

/-- The `metadata` dictionaries that the strategies of `pruning.py` attach to
their decisions: nothing, the offending cycles, a reason type (optionally with
a failure rate), or — for composites — the nested source decision(s) together
with the combination mode. -/
inductive DecisionMeta where
  | empty
  | cycles (cs : List (List ℕ))
  | reasonType (t : String)
  | reasonRate (t : String) (rate : ℚ)
  | source (combination_mode : String) (d : PruningDecision)
  | all (combination_mode : String) (ds : List PruningDecision)
end

namespace PruningDecision

/-- Field accessor. -/
def state_id : PruningDecision → ℕ
  | .mk s _ _ _ _ _ => s

/-- Field accessor. -/
def should_prune : PruningDecision → Bool
  | .mk _ b _ _ _ _ => b

/-- Field accessor. -/
def strategy_name : PruningDecision → String
  | .mk _ _ n _ _ _ => n

/-- Field accessor. -/
def reason : PruningDecision → String
  | .mk _ _ _ r _ _ => r

/-- Field accessor. -/
def priority : PruningDecision → ℤ
  | .mk _ _ _ _ p _ => p

/-- Field accessor. -/
def metadata : PruningDecision → DecisionMeta
  | .mk _ _ _ _ _ m => m

end PruningDecision

/-- The `evaluations/pruned/kept` counters every strategy carries. -/
structure StrategyStats where
  evaluations : ℕ := 0
  pruned : ℕ := 0
  kept : ℕ := 0

/-- `PruningStrategy._record_evaluation`. -/
def recordEvaluation (st : StrategyStats) : StrategyStats :=
  { st with evaluations := st.evaluations + 1 }

/-- `PruningStrategy._record_pruned`. -/
def recordPruned (st : StrategyStats) : StrategyStats :=
  { st with pruned := st.pruned + 1 }

/-- `PruningStrategy._record_kept`. -/
def recordKept (st : StrategyStats) : StrategyStats :=
  { st with kept := st.kept + 1 }

/-- A (non-composite) pruning strategy object: its name, priority, counters,
and its `should_prune` body as a function of the evaluated state, graph,
context and the strategy's current counters.  This models the
`PruningStrategy` base class, over which `CompositePruningStrategy` is
polymorphic. -/
structure SubStrategy where
  name : String
  priority : ℤ
  stats : StrategyStats
  run : ℕ → TrajectoryGraph → PruningContext → StrategyStats →
    StrategyStats × PruningDecision

/-- Calling `strategy.should_prune(...)`: the body runs on the strategy's own
counters and the mutated strategy object is the one with the updated
counters. -/
def SubStrategy.should_prune (s : SubStrategy) (state_id : ℕ) (g : TrajectoryGraph)
    (ctx : PruningContext) : SubStrategy × PruningDecision :=
  let r := s.run state_id g ctx s.stats
  ({ s with stats := r.1 }, r.2)

/-- `CycleEliminationStrategy._state_has_productive_exit`: an outgoing edge of
`state_id` whose target lies outside the cycle, is marked successful, and whose
target either has a successful history entry or is an existing, non-pruned node
with at least one outgoing edge. -/
def stateHasProductiveExit (g : TrajectoryGraph) (ctx : PruningContext)
    (state_id : ℕ) (cycle_nodes : Finset ℕ) : Bool :=
  (g.adj state_id).any fun eid =>
    match g.findEdge eid with
    | none => false
    | some edge =>
      decide (edge.target ∉ cycle_nodes) && edge.success &&
        (ctx.was_successful edge.target ||
          (g.hasNode edge.target && !(g.isPrunedD edge.target) &&
            !(g.adj edge.target).isEmpty))

/-- The body of `CycleEliminationStrategy.should_prune`.  The cycle cache of
the source is modelled as transparent (`detect_cycles` is recomputed, which is
what a valid cache holds); no claim concerns cache staleness. -/
def cycleEliminationRun (priority : ℤ) (state_id : ℕ) (g : TrajectoryGraph)
    (ctx : PruningContext) (st : StrategyStats) : StrategyStats × PruningDecision :=
  let st := recordEvaluation st
  if ¬ g.hasNode state_id ∨ g.isPrunedD state_id then
    (recordKept st, ⟨state_id, false, "CycleElimination",
      "State does not exist or already pruned", priority, .empty⟩)
  else
    let cycles := g.detect_cycles
    let state_cycles := cycles.filter (fun c => state_id ∈ c.dropLast)
    if state_cycles = [] then
      (recordKept st, ⟨state_id, false, "CycleElimination",
        "State not in any cycle", priority, .empty⟩)
    else if state_cycles.any (fun cycle =>
        stateHasProductiveExit g ctx state_id cycle.dropLast.toFinset) then
      (recordKept st, ⟨state_id, false, "CycleElimination",
        s!"Cycle has productive exit from state {state_id}", priority, .empty⟩)
    else
      (recordPruned st, ⟨state_id, true, "CycleElimination",
        "State in cycle without productive exits", priority, .cycles state_cycles⟩)

/-- `CycleEliminationStrategy` with its counters zeroed (priority defaults
to 10). -/
def cycleEliminationStrategy (priority : ℤ := 10) : SubStrategy :=
  { name := "CycleElimination", priority := priority, stats := {},
    run := cycleEliminationRun priority }

/-- The `while stack:` loop of `DeadEndStrategy._calculate_failure_rate`,
counting visited states and those the context reports unsuccessful.  Python
pushes/pops at the end of the list; the model keeps the top of the stack at
the head, so the successors found in adjacency order are prepended in reverse.
The fuel bounds the iteration count and is chosen large enough by the
caller. -/
def failureRateLoop (g : TrajectoryGraph) (ctx : PruningContext) :
    ℕ → List ℕ → Finset ℕ → ℕ → ℕ → ℕ × ℕ
  | 0, _, _, total, failures => (total, failures)
  | _ + 1, [], _, total, failures => (total, failures)
  | fuel + 1, current :: rest, visited, total, failures =>
    if current ∈ visited then failureRateLoop g ctx fuel rest visited total failures
    else
      let visited := insert current visited
      let total := total + 1
      let failures := if ¬ ctx.was_successful current then failures + 1 else failures
      let pushes := (g.adj current).foldl
        (fun acc eid =>
          match g.findEdge eid with
          | none => acc
          | some e => acc ++ [e.target]) []
      failureRateLoop g ctx fuel (pushes.reverse ++ rest) visited total failures

/-- `DeadEndStrategy._calculate_failure_rate`: failures over total among the
states reachable from `state_id` (0 when nothing was visited). -/
def calculateFailureRate (g : TrajectoryGraph) (ctx : PruningContext)
    (state_id : ℕ) : ℚ :=
  let fuel := (g.nodes.length + g.edges.length + 1) * (g.edges.length + 1)
  let r := failureRateLoop g ctx fuel [state_id] ∅ 0 0
  if r.1 = 0 then 0 else (r.2 : ℚ) / (r.1 : ℚ)

/-- Round half to even on rationals (Python's `round`, used by the `:.2f`
float format). -/
def ratRoundHalfEven (q : ℚ) : ℤ :=
  if q - ⌊q⌋ < 1 / 2 then ⌊q⌋
  else if 1 / 2 < q - ⌊q⌋ then ⌊q⌋ + 1
  else if Even ⌊q⌋ then ⌊q⌋ else ⌊q⌋ + 1

/-- Python's `f"{x:.2f}"` for a nonnegative rate, modelled exactly on the
rational value. -/
def formatTwoDecimals (q : ℚ) : String :=
  let c := (ratRoundHalfEven (q * 100)).natAbs
  let f := c % 100
  s!"{c / 100}." ++ (if f < 10 then "0" else "") ++ s!"{f}"

/-- The body of `DeadEndStrategy.should_prune`: keep nonexistent/pruned states
(without touching the kept counter, as the source does there); prune leaves;
prune states whose outgoing edges all failed; when `propagate_failures`, prune
states whose reachable failure rate reaches the threshold; otherwise keep. -/
def deadEndRun (priority : ℤ) (propagate_failures : Bool) (failure_threshold : ℚ)
    (state_id : ℕ) (g : TrajectoryGraph) (ctx : PruningContext)
    (st : StrategyStats) : StrategyStats × PruningDecision :=
  let st := recordEvaluation st
  if ¬ g.hasNode state_id ∨ g.isPrunedD state_id then
    (st, ⟨state_id, false, "DeadEnd",
      "State does not exist or already pruned", priority, .empty⟩)
  else
    let outgoing := g.adj state_id
    if outgoing = [] then
      (recordPruned st, ⟨state_id, true, "DeadEnd",
        "Leaf node with no outgoing edges", priority, .reasonType "leaf"⟩)
    else if outgoing.all (fun eid => !(g.edgeSuccessD eid)) then
      (recordPruned st, ⟨state_id, true, "DeadEnd",
        "All outgoing edges failed", priority, .reasonType "all_failed"⟩)
    else
      let rate := calculateFailureRate g ctx state_id
      if propagate_failures ∧ failure_threshold ≤ rate then
        (recordPruned st, ⟨state_id, true, "DeadEnd",
          s!"High failure rate ({formatTwoDecimals rate})", priority,
          .reasonRate "high_failure_rate" rate⟩)
      else
        (recordKept st, ⟨state_id, false, "DeadEnd",
          "State has productive outgoing edges", priority, .empty⟩)

/-- `DeadEndStrategy` with its counters zeroed (priority defaults to 5,
`propagate_failures=True`, `failure_threshold=0.8`). -/
def deadEndStrategy (priority : ℤ := 5) (propagate_failures : Bool := true)
    (failure_threshold : ℚ := 4 / 5) : SubStrategy :=
  { name := "DeadEnd", priority := priority, stats := {},
    run := deadEndRun priority propagate_failures failure_threshold }

/-- The descending-priority order used by
`CompositePruningStrategy._sort_strategies`
(`sort(key=lambda s: s.priority, reverse=True)`). -/
def priorityGe (a b : SubStrategy) : Prop := b.priority ≤ a.priority

instance : DecidableRel priorityGe := fun a b =>
  inferInstanceAs (Decidable (b.priority ≤ a.priority))

instance : IsTotal SubStrategy priorityGe := ⟨fun a b => le_total b.priority a.priority⟩

instance : IsTrans SubStrategy priorityGe := ⟨fun _ _ _ h h' => le_trans h' h⟩

/-- `CompositePruningStrategy._sort_strategies`: sort by descending
priority. -/
def sortStrategies (ss : List SubStrategy) : List SubStrategy :=
  List.insertionSort priorityGe ss

/-- `CompositePruningStrategy`: combines sub-strategies under a combination
mode (`"any"`, `"all"`, `"priority"`). -/
structure CompositePruningStrategy where
  name : String := "Composite"
  priority : ℤ := 0
  combination_mode : String := "priority"
  strategies : List SubStrategy
  stats : StrategyStats := {}

/-- `CompositePruningStrategy.__init__`: store the sub-strategies sorted by
descending priority. -/
def mkComposite (strategies : List SubStrategy)
    (combination_mode : String := "priority") (name : String := "Composite") :
    CompositePruningStrategy :=
  { name := name, combination_mode := combination_mode,
    strategies := sortStrategies strategies }

/-- The `PRIORITY` loop of `CompositePruningStrategy.should_prune`: evaluate
the sub-strategies in list order, stop at the first positive verdict and wrap
it; sub-strategies after the stop are not evaluated (their objects, counters
included, are returned untouched).  Returns the updated sub-strategy list and
the wrapped decision, if any. -/
def priorityLoop (cname : String) (state_id : ℕ) (g : TrajectoryGraph)
    (ctx : PruningContext) :
    List SubStrategy → List SubStrategy × Option PruningDecision
  | [] => ([], none)
  | s :: rest =>
    let r := s.should_prune state_id g ctx
    if r.2.should_prune then
      (r.1 :: rest, some ⟨state_id, true, cname,
        "Priority decision from " ++ s.name ++ ": " ++ r.2.reason,
        s.priority, .source "priority" r.2⟩)
    else
      let rr := priorityLoop cname state_id g ctx rest
      (r.1 :: rr.1, rr.2)

/-- Python's `max(ds, key=lambda d: d.priority)` (first maximum wins). -/
def maxByPriority (d : PruningDecision) (ds : List PruningDecision) : PruningDecision :=
  ds.foldl (fun best x => if best.priority < x.priority then x else best) d

/-- `CompositePruningStrategy.should_prune`: no strategies ⇒ negative verdict;
`priority` mode short-circuits on the first positive sub-verdict; `any`/`all`
modes evaluate every sub-strategy and combine; anything else falls through to
the negative "no consensus" verdict carrying all decisions. -/
def compositeShouldPrune (c : CompositePruningStrategy) (state_id : ℕ)
    (g : TrajectoryGraph) (ctx : PruningContext) :
    CompositePruningStrategy × PruningDecision :=
  if c.strategies.isEmpty then
    (c, ⟨state_id, false, c.name, "No strategies configured", c.priority, .empty⟩)
  else if c.combination_mode = "priority" then
    let r := priorityLoop c.name state_id g ctx c.strategies
    match r.2 with
    | some d => ({ c with strategies := r.1 }, d)
    | none => ({ c with strategies := r.1 },
        ⟨state_id, false, c.name, "No high-priority strategy recommended pruning",
          c.priority, .empty⟩)
  else
    let rr := c.strategies.foldl
      (fun (acc : List SubStrategy × List PruningDecision) s =>
        let r := s.should_prune state_id g ctx
        (acc.1 ++ [r.1], acc.2 ++ [r.2])) ([], [])
    let c := { c with strategies := rr.1 }
    let decisions := rr.2
    if c.combination_mode = "any" ∧ ¬ (decisions.filter (fun d => d.should_prune)).isEmpty then
      match decisions.filter (fun d => d.should_prune) with
      | [] => (c, ⟨state_id, false, c.name, "No strategies configured", c.priority, .empty⟩)
      | d :: ds =>
        let highest := maxByPriority d ds
        (c, ⟨state_id, true, c.name,
          s!"ANY mode: {(d :: ds).length} strategies recommended pruning",
          highest.priority, .all c.combination_mode decisions⟩)
    else if c.combination_mode = "all" ∧ decisions.all (fun d => d.should_prune) then
      match decisions with
      | [] => (c, ⟨state_id, false, c.name, "No strategies configured", c.priority, .empty⟩)
      | d :: ds =>
        let highest := maxByPriority d ds
        (c, ⟨state_id, true, c.name, "ALL mode: All strategies recommended pruning",
          highest.priority, .all c.combination_mode decisions⟩)
    else
      (c, ⟨state_id, false, c.name,
        c.combination_mode.toUpper ++ " mode: No consensus to prune",
        c.priority, .all c.combination_mode decisions⟩)

/-- `PruningManager`: a registry of named strategy objects (of any strategy
type `σ`), a default name, the append-only decision history, the cumulative
pruned-state set, the registered observer hooks (modelled by their count; the
decisions passed to them are reported by `evaluate`), and the global
enable/disable gate. -/
structure PruningManager (σ : Type) where
  strategies : List (String × σ)
  default_strategy : Option String := none
  history : List PruningDecision := []
  pruned_states : Finset ℕ := ∅
  hooks_count : ℕ := 0
  enabled : Bool := true

namespace PruningManager

/-- `PruningManager.disable`. -/
def disable {σ : Type} (m : PruningManager σ) : PruningManager σ :=
  { m with enabled := false }

/-- `PruningManager.enable`. -/
def enable {σ : Type} (m : PruningManager σ) : PruningManager σ :=
  { m with enabled := true }

/-- `PruningManager.evaluate`, parametrized by the `should_prune` operation
`runner` of the strategy type `σ`.  When the gate is disabled it returns the
"Pruning is disabled" keep verdict at once, with the manager untouched and no
hook invoked; otherwise it dispatches to the chosen strategy (a `ValueError`
if the name is unknown), stores the updated strategy object, appends the
decision to the history, extends the pruned-state set on a positive verdict
and invokes every hook with the decision (the third component lists those
hook invocations). -/
def evaluate {σ : Type}
    (runner : σ → ℕ → TrajectoryGraph → PruningContext → σ × PruningDecision)
    (m : PruningManager σ) (state_id : ℕ) (g : TrajectoryGraph)
    (ctx : PruningContext := {}) (strategy_name : Option String := none) :
    Except String (PruningManager σ × PruningDecision × List PruningDecision) :=
  if ¬ m.enabled then
    .ok (m, ⟨state_id, false, "None", "Pruning is disabled", 0, .empty⟩, [])
  else
    let name := match strategy_name with
      | some n => some n
      | none => m.default_strategy
    match name with
    | none => .error "Strategy 'None' not found"
    | some n =>
      match m.strategies.lookup n with
      | none => .error s!"Strategy '{n}' not found"
      | some strat =>
        let r := runner strat state_id g ctx
        let decision := r.2
        let m' := { m with
          strategies := m.strategies.map (fun p => if p.1 = n then (p.1, r.1) else p),
          history := m.history ++ [decision],
          pruned_states := if decision.should_prune then insert state_id m.pruned_states
            else m.pruned_states }
        .ok (m', decision, List.replicate m.hooks_count decision)

end PruningManager

/-! ## Canonical forms of observation payloads (for the dedup claim) -/

/-- Well-formedness of an observation payload as it arises from real Python
data: every dict has pairwise-distinct keys. -/
def obsWFb : Obs → Bool
  | .str _ => true
  | .num _ => true
  | .bool _ => true
  | .null => true
  | .list xs => xs.attach.all fun x => obsWFb x.1
  | .dict fs =>
    decide ((fs.map Prod.fst).Nodup) && fs.attach.all fun kv => obsWFb kv.1.2
termination_by o => sizeOf o
decreasing_by
  · have := List.sizeOf_lt_of_mem x.2
    simp only [Obs.list.sizeOf_spec]
    omega
  · have h1 := List.sizeOf_lt_of_mem kv.2
    have h2 : sizeOf kv.1.2 < sizeOf kv.1 := by
      obtain ⟨a, b⟩ := kv.1
      simp only [Prod.mk.sizeOf_spec]
      omega
    simp only [Obs.dict.sizeOf_spec]
    omega

/-- The canonical form of a payload: every dict recursively sorted by key.
Two payloads are "logically identical but differently key-ordered" (the
spec's phrase) exactly when they have the same canonical form. -/
def canon : Obs → Obs
  | .str s => .str s
  | .num n => .num n
  | .bool b => .bool b
  | .null => .null
  | .list xs => .list (xs.attach.map fun x => canon x.1)
  | .dict fs => .dict (sortFields (fs.attach.map fun kv => (kv.1.1, canon kv.1.2)))
termination_by o => sizeOf o
decreasing_by
  · have := List.sizeOf_lt_of_mem x.2
    simp only [Obs.list.sizeOf_spec]
    omega
  · have h1 := List.sizeOf_lt_of_mem kv.2
    have h2 : sizeOf kv.1.2 < sizeOf kv.1 := by
      obtain ⟨a, b⟩ := kv.1
      simp only [Prod.mk.sizeOf_spec]
      omega
    simp only [Obs.dict.sizeOf_spec]
    omega

/-- A one-node graph whose single state (id 0) has no outgoing edges: a dead
end that belongs to no cycle. -/
def deadEndLeafGraph : TrajectoryGraph :=
  (TrajectoryGraph.empty.add_state (.str "s0") "").1

/-- The composite of the spec's PRIORITY-mode scenario: CycleElimination at
priority 10 and DeadEnd at priority 5, in priority mode. -/
def ceDeComposite : CompositePruningStrategy :=
  mkComposite [cycleEliminationStrategy 10, deadEndStrategy 5] "priority" "Composite"

/-! ## Helper lemmas -/

theorem pythonRound_intCast (n : ℤ) : pythonRound (n : ℝ) = n := by
  unfold pythonRound
  rw [Int.floor_intCast]
  norm_num

/-! ## Claim theorems -/

/-- C9: `getComputeBudget(stats, minSamples, maxSamples)` returns
`round(minSamples + (maxSamples − minSamples) × normalizedEntropy)`;
normalized entropy 0 gives `minSamples`, 1 gives `maxSamples`, and
`(minSamples=5, maxSamples=15, normalizedEntropy=0.4)` gives 9. -/
theorem compute_budget_interpolation (stats : UncertaintyStats) (mn mx : ℤ) :
    get_compute_budget stats mn mx
      = pythonRound ((mn : ℝ) + ((mx : ℝ) - (mn : ℝ)) * stats.normalized_entropy) ∧
    (stats.normalized_entropy = 0 → get_compute_budget stats mn mx = mn) ∧
    (stats.normalized_entropy = 1 → get_compute_budget stats mn mx = mx) ∧
    (stats.normalized_entropy = 0.4 → get_compute_budget stats 5 15 = 9) := by
  have h0 : ∀ (p q : ℤ), get_compute_budget stats p q
      = pythonRound ((p : ℝ) + ((q : ℝ) - (p : ℝ)) * stats.normalized_entropy) :=
    fun _ _ => rfl
  refine ⟨rfl, ?_, ?_, ?_⟩
  · intro h
    rw [h0, h]
    simpa using pythonRound_intCast mn
  · intro h
    rw [h0, h, show (mn : ℝ) + ((mx : ℝ) - (mn : ℝ)) * 1 = ((mx : ℤ) : ℝ) by ring,
      pythonRound_intCast]
  · intro h
    rw [h0, h, show ((5 : ℤ) : ℝ) + (((15 : ℤ) : ℝ) - ((5 : ℤ) : ℝ)) * (0.4 : ℝ)
        = ((9 : ℤ) : ℝ) by norm_num,
      pythonRound_intCast]

/-- Closed witness for `compute_budget_interpolation` at a concrete stats
record with normalized entropy 0.4. -/
theorem compute_budget_interpolation_witness :
    get_compute_budget
      { entropy := 0.4, normalized_entropy := 0.4, variance := 0,
        pairwise_disagreement := 0, confidence := 0, uncertainty := 1,
        num_candidates := 2, total_votes := 0 } 5 15 = 9 :=
  (compute_budget_interpolation
    { entropy := 0.4, normalized_entropy := 0.4, variance := 0,
      pairwise_disagreement := 0, confidence := 0, uncertainty := 1,
      num_candidates := 2, total_votes := 0 } 5 15).2.2.2 rfl

/-- C7: for the degenerate zero-vote distribution every derived statistic is
well defined and zero (entropy, normalized entropy, variance, pairwise
disagreement, confidence), and `get_uncertainty_stats` returns the neutral
record (with `uncertainty = 1 − confidence = 1`) rather than dividing by
zero. -/
theorem zero_vote_distribution_stats (v : VoteDistribution)
    (h : v.total_votes = 0) :
    compute_entropy v = 0 ∧ compute_variance v = 0 ∧
    compute_pairwise_disagreement v = 0 ∧ v.get_confidence = 0 ∧
    get_uncertainty_stats v =
      { entropy := 0, normalized_entropy := 0, variance := 0,
        pairwise_disagreement := 0, confidence := 0, uncertainty := 1,
        num_candidates := v.candidates.length, total_votes := 0 } := by
  have he : compute_entropy v = 0 := by
    unfold compute_entropy
    rw [if_pos h]
  have hv : compute_variance v = 0 := by
    unfold compute_variance
    rw [if_pos (Or.inl h)]
  have hd : compute_pairwise_disagreement v = 0 := by
    unfold compute_pairwise_disagreement
    rw [if_pos (by omega)]
  have hc : v.get_confidence = 0 := by
    unfold VoteDistribution.get_confidence
    rw [if_pos h]
  refine ⟨he, hv, hd, hc, ?_⟩
  unfold get_uncertainty_stats
  rw [he, hv, hd, hc, h]
  simp

/-- Closed witness for `zero_vote_distribution_stats` at the empty
distribution. -/
theorem zero_vote_distribution_stats_witness :
    compute_entropy ⟨[], 0⟩ = 0 ∧ compute_variance ⟨[], 0⟩ = 0 ∧
    compute_pairwise_disagreement ⟨[], 0⟩ = 0 ∧
    VoteDistribution.get_confidence ⟨[], 0⟩ = 0 ∧
    get_uncertainty_stats ⟨[], 0⟩ =
      { entropy := 0, normalized_entropy := 0, variance := 0,
        pairwise_disagreement := 0, confidence := 0, uncertainty := 1,
        num_candidates := 0, total_votes := 0 } :=
  zero_vote_distribution_stats ⟨[], 0⟩ rfl

/-- C5: `add_edge` with an unknown endpoint fails with a distinct error
naming the invalid endpoint (source checked first) and returns the graph
completely unmodified. -/
theorem add_edge_unknown_endpoint_spec (g : TrajectoryGraph)
    (from_state to_state : ℕ) (w : ℚ) (s : Bool) (a : String) :
    (¬ g.hasNode from_state →
      g.add_edge from_state to_state w s a
        = (g, .error s!"Source state {from_state} does not exist")) ∧
    (g.hasNode from_state → ¬ g.hasNode to_state →
      g.add_edge from_state to_state w s a
        = (g, .error s!"Target state {to_state} does not exist")) := by
  constructor
  · intro h
    unfold TrajectoryGraph.add_edge
    rw [if_pos h]
  · intro h h'
    unfold TrajectoryGraph.add_edge
    rw [if_neg (by simpa using h), if_pos h']

/-- Closed witness for `add_edge_unknown_endpoint_spec`: on the empty graph
the source check fires, and with one node the target check fires. -/
theorem add_edge_unknown_endpoint_spec_witness :
    TrajectoryGraph.empty.add_edge 0 1 1 true ""
      = (TrajectoryGraph.empty, .error "Source state 0 does not exist") ∧
    (TrajectoryGraph.empty.add_state (.str "s0") "").1.add_edge 0 7 1 true ""
      = ((TrajectoryGraph.empty.add_state (.str "s0") "").1,
          .error "Target state 7 does not exist") :=
  ⟨(add_edge_unknown_endpoint_spec TrajectoryGraph.empty 0 1 1 true "").1
      (by decide),
    (add_edge_unknown_endpoint_spec
        (TrajectoryGraph.empty.add_state (.str "s0") "").1 0 7 1 true "").2
      (by decide) (by decide)⟩

/-- The three-state graph `s0 → s1 → s2 → s0` (state ids 0, 1, 2). -/
def triangleGraph : TrajectoryGraph :=
  let g := (TrajectoryGraph.empty.add_state (.str "s0") "").1
  let g := (g.add_state (.str "s1") "a").1
  let g := (g.add_state (.str "s2") "b").1
  let g := (g.add_edge 0 1).1
  let g := (g.add_edge 1 2).1
  (g.add_edge 2 0).1

/-- A single state with a self-loop edge `s → s` (state id 0). -/
def selfLoopGraph : TrajectoryGraph :=
  let g := (TrajectoryGraph.empty.add_state (.str "s") "").1
  (g.add_edge 0 0).1

/-- C6: `detect_cycles` on `s0→s1→s2→s0` returns exactly one cycle, the list
`[s0, s1, s2, s0]`; on a self-loop `s→s` it returns one cycle over the single
node, as the path slice from `s` plus the repeated closing id, `[s, s]`. -/
theorem detect_cycles_triangle_and_self_loop :
    triangleGraph.detect_cycles = [[0, 1, 2, 0]] ∧
    selfLoopGraph.detect_cycles = [[0, 0]] := by
  constructor <;> rfl

/-- C10: with the global gate disabled, `PruningManager.evaluate` returns the
keep verdict "Pruning is disabled" (attributed to strategy "None", priority
0), the manager itself completely unchanged — history, pruned-state set and
every registered strategy object with its counters included — and invokes no
observer hook and no strategy. -/
theorem manager_disabled_evaluate_frame {σ : Type}
    (runner : σ → ℕ → TrajectoryGraph → PruningContext → σ × PruningDecision)
    (m : PruningManager σ) (state_id : ℕ) (g : TrajectoryGraph)
    (ctx : PruningContext) (strategy_name : Option String)
    (h : m.enabled = false) :
    m.evaluate runner state_id g ctx strategy_name
      = .ok (m, ⟨state_id, false, "None", "Pruning is disabled", 0, .empty⟩, []) := by
  unfold PruningManager.evaluate
  rw [if_pos (by simp [h])]

/-- A disabled manager holding the DeadEnd strategy, used as the witness
instance for the disabled-gate frame property. -/
def disabledManagerExample : PruningManager SubStrategy :=
  { strategies := [("DeadEnd", deadEndStrategy)],
    default_strategy := some "DeadEnd", enabled := false }

/-- Closed witness for `manager_disabled_evaluate_frame` on a disabled
manager holding the DeadEnd strategy. -/
theorem manager_disabled_evaluate_frame_witness :
    PruningManager.evaluate SubStrategy.should_prune disabledManagerExample
      3 TrajectoryGraph.empty {} none
      = .ok (disabledManagerExample,
        ⟨3, false, "None", "Pruning is disabled", 0, .empty⟩, []) :=
  manager_disabled_evaluate_frame SubStrategy.should_prune disabledManagerExample
    3 TrajectoryGraph.empty {} none rfl

theorem lookup_append {α β : Type} [BEq α] (l l' : List (α × β)) (k : α) :
    (l ++ l').lookup k = ((l.lookup k).or (l'.lookup k)) := by
  induction l with
  | nil => simp [List.lookup]
  | cons p t ih =>
    obtain ⟨a, b⟩ := p
    simp only [List.cons_append, List.lookup]
    cases h : k == a
    · simpa [h] using ih
    · simp [h]

theorem lookup_mem {α β : Type} [BEq α] [LawfulBEq α] {l : List (α × β)} {k : α} {v : β}
    (h : l.lookup k = some v) : (k, v) ∈ l := by
  induction l with
  | nil => simp [List.lookup] at h
  | cons p t ih =>
    obtain ⟨a, b⟩ := p
    simp only [List.lookup] at h
    cases hk : k == a
    · rw [hk] at h
      exact List.mem_cons_of_mem _ (ih h)
    · rw [hk] at h
      obtain rfl : b = v := by simpa using h
      obtain rfl : k = a := eq_of_beq hk
      exact List.mem_cons_self _ _

theorem obsWFb_list_mem {xs : List Obs} (h : obsWFb (.list xs) = true) {x : Obs}
    (hx : x ∈ xs) : obsWFb x = true := by
  rw [obsWFb, List.all_eq_true] at h
  exact h ⟨x, hx⟩ (List.mem_attach _ _)

theorem obsWFb_dict_nodup {fs : List (String × Obs)} (h : obsWFb (.dict fs) = true) :
    (fs.map Prod.fst).Nodup := by
  rw [obsWFb, Bool.and_eq_true] at h
  exact of_decide_eq_true h.1

theorem obsWFb_dict_mem {fs : List (String × Obs)} (h : obsWFb (.dict fs) = true)
    {kv : String × Obs} (hkv : kv ∈ fs) : obsWFb kv.2 = true := by
  rw [obsWFb, Bool.and_eq_true, List.all_eq_true] at h
  exact h.2 ⟨kv, hkv⟩ (List.mem_attach _ _)

theorem canon_str (s : String) : canon (.str s) = .str s := by
  rw [canon]

theorem canon_list (xs : List Obs) : canon (.list xs) = .list (xs.map canon) := by
  rw [canon]
  congr 1
  exact List.attach_map_val xs canon

theorem canon_dict (fs : List (String × Obs)) :
    canon (.dict fs) = .dict (sortFields (fs.map fun kv => (kv.1, canon kv.2))) := by
  rw [canon]
  congr 2
  exact List.attach_map_val fs (fun kv => (kv.1, canon kv.2))

theorem pyJsonDumps_list_eq (xs : List Obs) :
    pyJsonDumps (.list xs)
      = "[" ++ String.intercalate ", " (xs.map pyJsonDumps) ++ "]" := by
  rw [pyJsonDumps, List.attach_map_val xs pyJsonDumps]

theorem pyJsonDumps_dict_eq (fs : List (String × Obs)) :
    pyJsonDumps (.dict fs)
      = "\x7b" ++ String.intercalate ", "
          ((sortFields fs).map fun kv => jsonQuote kv.1 ++ ": " ++ pyJsonDumps kv.2)
        ++ "\x7d" := by
  rw [pyJsonDumps,
    List.attach_map_val (sortFields fs) (fun kv => jsonQuote kv.1 ++ ": " ++ pyJsonDumps kv.2)]

theorem sorted_perm_key_nodup_eq {l₁ l₂ : List (String × Obs)} (hp : l₁.Perm l₂)
    (hs₁ : l₁.Sorted keyLe) (hs₂ : l₂.Sorted keyLe)
    (hn : (l₁.map Prod.fst).Nodup) : l₁ = l₂ := by
  haveI : IsAntisymm (String × Obs) (fun a b => a.1 < b.1) :=
    ⟨fun a b h h' => absurd h' (lt_asymm h)⟩
  have hn₂ : (l₂.map Prod.fst).Nodup := ((hp.map Prod.fst).nodup_iff).mp hn
  have hlt : ∀ {l : List (String × Obs)}, l.Sorted keyLe → (l.map Prod.fst).Nodup →
      l.Sorted (fun a b => a.1 < b.1) := by
    intro l hs hnd
    have hne : l.Pairwise (fun a b => a.1 ≠ b.1) := List.pairwise_map.mp hnd
    exact (List.Pairwise.and hs hne).imp (fun h => lt_of_le_of_ne h.1 h.2)
  exact List.eq_of_perm_of_sorted hp (hlt hs₁ hn) (hlt hs₂ hn₂)

theorem sortFields_idem (l : List (String × Obs)) :
    sortFields (sortFields l) = sortFields l :=
  List.Sorted.insertionSort_eq (List.sorted_insertionSort keyLe l)

theorem sortFields_map_canon (fs : List (String × Obs))
    (hn : (fs.map Prod.fst).Nodup) :
    sortFields (fs.map fun kv => (kv.1, canon kv.2))
      = (sortFields fs).map fun kv => (kv.1, canon kv.2) := by
  apply sorted_perm_key_nodup_eq
  · exact (List.perm_insertionSort keyLe _).trans
      ((List.perm_insertionSort keyLe fs).symm.map _)
  · exact List.sorted_insertionSort keyLe _
  · exact List.Pairwise.map _ (fun a b h => h) (List.sorted_insertionSort keyLe fs)
  · unfold sortFields
    have hperm := (List.perm_insertionSort keyLe (fs.map fun kv => (kv.1, canon kv.2))).map
      Prod.fst
    have he : ((fs.map fun kv => (kv.1, canon kv.2)).map Prod.fst) = fs.map Prod.fst := by
      rw [List.map_map]
      rfl
    rw [hperm.nodup_iff, he]
    exact hn

theorem pyJsonDumps_canon : ∀ (p : Obs), obsWFb p = true →
    pyJsonDumps (canon p) = pyJsonDumps p
  | .str _, _ => by rw [canon]
  | .num _, _ => by rw [canon]
  | .bool _, _ => by rw [canon]
  | .null, _ => by rw [canon]
  | .list xs, h => by
    rw [canon_list, pyJsonDumps_list_eq, pyJsonDumps_list_eq, List.map_map]
    have hmap : xs.map (pyJsonDumps ∘ canon) = xs.map pyJsonDumps := by
      apply List.map_congr_left
      intro x hx
      exact pyJsonDumps_canon x (obsWFb_list_mem h hx)
    rw [hmap]
  | .dict fs, h => by
    have hn := obsWFb_dict_nodup h
    rw [canon_dict, pyJsonDumps_dict_eq, pyJsonDumps_dict_eq,
      sortFields_idem, sortFields_map_canon fs hn, List.map_map]
    have hmap : (sortFields fs).map
        ((fun kv => jsonQuote kv.1 ++ ": " ++ pyJsonDumps kv.2)
          ∘ fun kv => (kv.1, canon kv.2))
        = (sortFields fs).map fun kv => jsonQuote kv.1 ++ ": " ++ pyJsonDumps kv.2 := by
      apply List.map_congr_left
      intro kv hkv
      have hkv' : kv ∈ fs := (List.perm_insertionSort keyLe fs).mem_iff.mp hkv
      have := pyJsonDumps_canon kv.2 (obsWFb_dict_mem h hkv')
      simp only [Function.comp]
      rw [this]
    rw [hmap]
termination_by p => sizeOf p
decreasing_by
  · have := List.sizeOf_lt_of_mem hx
    simp only [Obs.list.sizeOf_spec]
    omega
  · have h1 := List.sizeOf_lt_of_mem hkv'
    have h2 : sizeOf kv.2 < sizeOf kv := by
      obtain ⟨a, b⟩ := kv
      simp only [Prod.mk.sizeOf_spec]
      omega
    simp only [Obs.dict.sizeOf_spec]
    omega

theorem get_state_hash_canon {p q : Obs} (hp : obsWFb p = true)
    (hq : obsWFb q = true) (h : canon p = canon q) :
    TrajectoryGraph.get_state_hash p = TrajectoryGraph.get_state_hash q := by
  have hd : pyJsonDumps p = pyJsonDumps q := by
    rw [← pyJsonDumps_canon p hp, h, pyJsonDumps_canon q hq]
  cases p <;> cases q <;>
    simp only [canon, Obs.str.injEq] at h <;>
    first
      | (subst h; rfl)
      | exact hd
      | exact Obs.noConfusion h

theorem add_state_lookup_self (g : TrajectoryGraph) (p : Obs) (a : String) :
    ((g.add_state p a).1).observation_to_state.lookup (TrajectoryGraph.get_state_hash p)
      = some ((g.add_state p a).2) := by
  unfold TrajectoryGraph.add_state
  cases e : g.observation_to_state.lookup (TrajectoryGraph.get_state_hash p) with
  | some sid => simp [e]
  | none =>
    simp only [e]
    rw [lookup_append, e]
    simp [List.lookup]

theorem add_state_of_lookup_some {g : TrajectoryGraph} {p : Obs} {i : ℕ} (a : String)
    (e : g.observation_to_state.lookup (TrajectoryGraph.get_state_hash p) = some i) :
    g.add_state p a = (g, i) := by
  unfold TrajectoryGraph.add_state
  simp [e]

theorem add_state_snd_of_lookup_none {g : TrajectoryGraph} {p : Obs} (a : String)
    (e : g.observation_to_state.lookup (TrajectoryGraph.get_state_hash p) = none) :
    (g.add_state p a).2 = g.next_node_id := by
  unfold TrajectoryGraph.add_state
  simp [e]

theorem add_state_ots_of_lookup_none {g : TrajectoryGraph} {p : Obs} (a : String)
    (e : g.observation_to_state.lookup (TrajectoryGraph.get_state_hash p) = none) :
    (g.add_state p a).1.observation_to_state
      = g.observation_to_state ++ [(TrajectoryGraph.get_state_hash p, g.next_node_id)] := by
  unfold TrajectoryGraph.add_state
  simp [e]

theorem add_state_next_of_lookup_none {g : TrajectoryGraph} {p : Obs} (a : String)
    (e : g.observation_to_state.lookup (TrajectoryGraph.get_state_hash p) = none) :
    (g.add_state p a).1.next_node_id = g.next_node_id + 1 := by
  unfold TrajectoryGraph.add_state
  simp [e]

theorem markPruned_ots (g : TrajectoryGraph) (sid : ℕ) :
    (g.markPruned sid).observation_to_state = g.observation_to_state := rfl

theorem markPruned_next (g : TrajectoryGraph) (sid : ℕ) :
    (g.markPruned sid).next_node_id = g.next_node_id := rfl

/-- C2 counterexample: the payloads `"1"` (a string) and `1` (a number) are
distinct, yet `add_state` returns the same id for both, because a string
payload is hashed as-is and `json.dumps(1)` serializes to the same string
`"1"`.  This refutes "called with distinct payloads it returns distinct
ids". -/
theorem add_state_distinct_payloads_counterexample :
    Obs.str "1" ≠ Obs.num 1 ∧
    ((TrajectoryGraph.empty.add_state (Obs.str "1") "a").1.add_state (Obs.num 1) "b").2
      = (TrajectoryGraph.empty.add_state (Obs.str "1") "a").2 := by
  refine ⟨fun h => Obs.noConfusion h, ?_⟩
  have hh : TrajectoryGraph.get_state_hash (Obs.num 1) = "1" := by
    show pyJsonDumps (Obs.num 1) = "1"
    rw [pyJsonDumps]
    rfl
  have e1 : (TrajectoryGraph.empty.add_state (Obs.str "1") "a").1.observation_to_state.lookup
      (TrajectoryGraph.get_state_hash (Obs.num 1)) = some 0 := by
    rw [hh]
    rfl
  rw [add_state_of_lookup_some "b" e1]
  rfl

/-- C2, amended: `add_state` deduplicates by the canonical content hash:
two calls whose payloads have equal hashes — in particular, well-formed
structured payloads with the same canonical form, i.e. logically identical up
to dict key order — return the same id; the dedup lookup never consults the
pruned flag (pruning any node first does not change the returned id); and two
calls whose payloads have distinct hashes return distinct ids.  (As the
counterexample shows, distinct payloads can share a hash when a string payload
equals the serialization of a structured payload, so "distinct payloads give
distinct ids" holds at hash granularity, not payload granularity.) -/
theorem add_state_dedup_spec (g : TrajectoryGraph) (hWF : g.WF) (p₁ p₂ : Obs)
    (a₁ a₂ : String) :
    (TrajectoryGraph.get_state_hash p₁ = TrajectoryGraph.get_state_hash p₂ →
      ((g.add_state p₁ a₁).1.add_state p₂ a₂).2 = (g.add_state p₁ a₁).2) ∧
    (obsWFb p₁ = true → obsWFb p₂ = true → canon p₁ = canon p₂ →
      ((g.add_state p₁ a₁).1.add_state p₂ a₂).2 = (g.add_state p₁ a₁).2) ∧
    (∀ sid : ℕ, ((g.markPruned sid).add_state p₂ a₂).2 = (g.add_state p₂ a₂).2) ∧
    (TrajectoryGraph.get_state_hash p₁ ≠ TrajectoryGraph.get_state_hash p₂ →
      ((g.add_state p₁ a₁).1.add_state p₂ a₂).2 ≠ (g.add_state p₁ a₁).2) := by
  obtain ⟨w1, w2, w3, w4, w5, w6, w7, w8, w9⟩ := hWF
  have hsame : TrajectoryGraph.get_state_hash p₁ = TrajectoryGraph.get_state_hash p₂ →
      ((g.add_state p₁ a₁).1.add_state p₂ a₂).2 = (g.add_state p₁ a₁).2 := by
    intro h
    have hl := add_state_lookup_self g p₁ a₁
    rw [h] at hl
    rw [add_state_of_lookup_some a₂ hl]
  refine ⟨hsame, fun hw1 hw2 hc => hsame (get_state_hash_canon hw1 hw2 hc), ?_, ?_⟩
  · intro sid
    cases e : g.observation_to_state.lookup (TrajectoryGraph.get_state_hash p₂) with
    | some i =>
      have e' : (g.markPruned sid).observation_to_state.lookup
          (TrajectoryGraph.get_state_hash p₂) = some i := by
        rw [markPruned_ots]
        exact e
      rw [add_state_of_lookup_some a₂ e, add_state_of_lookup_some a₂ e']
    | none =>
      have e' : (g.markPruned sid).observation_to_state.lookup
          (TrajectoryGraph.get_state_hash p₂) = none := by
        rw [markPruned_ots]
        exact e
      rw [add_state_snd_of_lookup_none a₂ e, add_state_snd_of_lookup_none a₂ e',
        markPruned_next]
  · intro hne
    cases e1 : g.observation_to_state.lookup (TrajectoryGraph.get_state_hash p₁) with
    | some i₁ =>
      rw [add_state_of_lookup_some a₁ e1]
      show (g.add_state p₂ a₂).2 ≠ i₁
      cases e2 : g.observation_to_state.lookup (TrajectoryGraph.get_state_hash p₂) with
      | some i₂ =>
        rw [add_state_of_lookup_some a₂ e2]
        show i₂ ≠ i₁
        intro hEq
        have m1 := lookup_mem e1
        have m2 := lookup_mem e2
        have hpair := List.inj_on_of_nodup_map w8 m1 m2 (by simpa using hEq.symm)
        exact hne (congrArg Prod.fst hpair)
      | none =>
        rw [add_state_snd_of_lookup_none a₂ e2]
        have := w9 _ (lookup_mem e1)
        simp only at this
        omega
    | none =>
      have hsnd1 := add_state_snd_of_lookup_none a₁ e1
      have hots1 := add_state_ots_of_lookup_none a₁ e1
      rw [hsnd1]
      cases e2 : g.observation_to_state.lookup (TrajectoryGraph.get_state_hash p₂) with
      | some i₂ =>
        have e2' : (g.add_state p₁ a₁).1.observation_to_state.lookup
            (TrajectoryGraph.get_state_hash p₂) = some i₂ := by
          rw [hots1, lookup_append, e2]
          rfl
        rw [add_state_of_lookup_some a₂ e2']
        have := w9 _ (lookup_mem e2)
        simp only at this
        omega
      | none =>
        have hbeq : (TrajectoryGraph.get_state_hash p₂
            == TrajectoryGraph.get_state_hash p₁) = false := by
          rw [beq_eq_false_iff_ne]
          exact fun hh => hne hh.symm
        have e2' : (g.add_state p₁ a₁).1.observation_to_state.lookup
            (TrajectoryGraph.get_state_hash p₂) = none := by
          rw [hots1, lookup_append, e2]
          simp [List.lookup, hbeq]
        rw [add_state_snd_of_lookup_none a₂ e2', add_state_next_of_lookup_none a₁ e1]
        omega

/-- Closed witness for `add_state_dedup_spec`: on the (well-formed) empty
graph, the payloads `"a"` and `"b"` have distinct hashes and receive distinct
ids. -/
theorem add_state_dedup_spec_witness :
    TrajectoryGraph.empty.WF ∧
    ((TrajectoryGraph.empty.add_state (Obs.str "a") "").1.add_state (Obs.str "b") "").2
      ≠ (TrajectoryGraph.empty.add_state (Obs.str "a") "").2 :=
  ⟨by decide,
    (add_state_dedup_spec TrajectoryGraph.empty (by decide) (Obs.str "a") (Obs.str "b")
      "" "").2.2.2 (by decide)⟩

theorem priorityLoop_neg_snd (cname : String) (state_id : ℕ) (g : TrajectoryGraph)
    (ctx : PruningContext) (ss : List SubStrategy)
    (h : ∀ s ∈ ss, (s.should_prune state_id g ctx).2.should_prune = false) :
    (priorityLoop cname state_id g ctx ss).2 = none := by
  induction ss with
  | nil => rfl
  | cons s rest ih =>
    rw [priorityLoop]
    have hs := h s (List.mem_cons_self s rest)
    simp only [hs, Bool.false_eq_true, if_false]
    exact ih (fun x hx => h x (List.mem_cons_of_mem _ hx))

theorem priorityLoop_pos (cname : String) (state_id : ℕ) (g : TrajectoryGraph)
    (ctx : PruningContext) :
    ∀ (ss : List SubStrategy) (k : ℕ) (hk : k < ss.length),
    (∀ s ∈ ss.take k, (s.should_prune state_id g ctx).2.should_prune = false) →
    ((ss.get ⟨k, hk⟩).should_prune state_id g ctx).2.should_prune = true →
    (priorityLoop cname state_id g ctx ss).2
        = some ⟨state_id, true, cname,
            "Priority decision from " ++ (ss.get ⟨k, hk⟩).name ++ ": "
              ++ ((ss.get ⟨k, hk⟩).should_prune state_id g ctx).2.reason,
            (ss.get ⟨k, hk⟩).priority,
            .source "priority" ((ss.get ⟨k, hk⟩).should_prune state_id g ctx).2⟩
      ∧ (priorityLoop cname state_id g ctx ss).1.drop (k + 1) = ss.drop (k + 1)
  | [], k, hk => by simp at hk
  | s :: rest, 0, hk => by
    intro _ hpos
    rw [priorityLoop]
    simp only [List.get] at hpos ⊢
    simp only [hpos, if_true]
    constructor <;> trivial
  | s :: rest, k + 1, hk => by
    intro hneg hpos
    rw [priorityLoop]
    have hs := hneg s (by simp [List.take_succ_cons])
    simp only [hs, Bool.false_eq_true, if_false]
    have hk' : k < rest.length := by simpa using hk
    have ih := priorityLoop_pos cname state_id g ctx rest k hk'
      (fun x hx => hneg x (by simp [List.take_succ_cons, hx]))
      (by simpa using hpos)
    refine ⟨by simpa using ih.1, ?_⟩
    simpa [List.drop_succ_cons] using ih.2

theorem compositeShouldPrune_priority_eq (c : CompositePruningStrategy)
    (state_id : ℕ) (g : TrajectoryGraph) (ctx : PruningContext)
    (hmode : c.combination_mode = "priority") (hne : c.strategies ≠ []) :
    compositeShouldPrune c state_id g ctx
      = match (priorityLoop c.name state_id g ctx c.strategies).2 with
        | some d =>
          ({ c with strategies := (priorityLoop c.name state_id g ctx c.strategies).1 }, d)
        | none =>
          ({ c with strategies := (priorityLoop c.name state_id g ctx c.strategies).1 },
            ⟨state_id, false, c.name, "No high-priority strategy recommended pruning",
              c.priority, .empty⟩) := by
  have h1 : ¬ (c.strategies.isEmpty = true) := by
    intro hh
    exact hne (List.isEmpty_iff.mp hh)
  unfold compositeShouldPrune
  rw [if_neg h1, if_pos hmode]

/-- C4: in PRIORITY combination mode the composite holds its sub-strategies
sorted by descending priority and evaluates them in that order, returning on
the first positive verdict (wrapping the sub-decision's reason, priority and
decision in its own) without evaluating the remaining strategies — their
objects, counters included, are returned untouched — and returning the
negative "No high-priority strategy recommended pruning" verdict when no
sub-strategy recommends pruning.  With CycleElimination (priority 10) and
DeadEnd (priority 5) registered, a node that is a dead end and in no cycle is
pruned with attribution (reason and source-decision metadata) tracing to
DeadEnd, not CycleElimination. -/
theorem composite_priority_mode_spec (ss₀ : List SubStrategy) (mode nm : String)
    (c : CompositePruningStrategy) (state_id : ℕ) (g : TrajectoryGraph)
    (ctx : PruningContext)
    (hmode : c.combination_mode = "priority") (hne : c.strategies ≠ []) :
    List.Sorted priorityGe (mkComposite ss₀ mode nm).strategies ∧
    (∀ k (hk : k < c.strategies.length),
      (∀ s ∈ c.strategies.take k, (s.should_prune state_id g ctx).2.should_prune = false) →
      ((c.strategies.get ⟨k, hk⟩).should_prune state_id g ctx).2.should_prune = true →
      (compositeShouldPrune c state_id g ctx).2
          = ⟨state_id, true, c.name,
              "Priority decision from " ++ (c.strategies.get ⟨k, hk⟩).name ++ ": "
                ++ ((c.strategies.get ⟨k, hk⟩).should_prune state_id g ctx).2.reason,
              (c.strategies.get ⟨k, hk⟩).priority,
              .source "priority"
                ((c.strategies.get ⟨k, hk⟩).should_prune state_id g ctx).2⟩
        ∧ (compositeShouldPrune c state_id g ctx).1.strategies.drop (k + 1)
            = c.strategies.drop (k + 1)) ∧
    ((∀ s ∈ c.strategies, (s.should_prune state_id g ctx).2.should_prune = false) →
      (compositeShouldPrune c state_id g ctx).2
        = ⟨state_id, false, c.name, "No high-priority strategy recommended pruning",
            c.priority, .empty⟩) ∧
    (compositeShouldPrune ceDeComposite 0 deadEndLeafGraph {}).2.should_prune = true ∧
    (compositeShouldPrune ceDeComposite 0 deadEndLeafGraph {}).2.reason
      = "Priority decision from DeadEnd: Leaf node with no outgoing edges" ∧
    (compositeShouldPrune ceDeComposite 0 deadEndLeafGraph {}).2.metadata
      = .source "priority"
          ⟨0, true, "DeadEnd", "Leaf node with no outgoing edges", 5, .reasonType "leaf"⟩ := by
  have hcp := compositeShouldPrune_priority_eq c state_id g ctx hmode hne
  refine ⟨List.sorted_insertionSort priorityGe ss₀, ?_, ?_, rfl, rfl, rfl⟩
  · intro k hk hneg hpos
    have hl := priorityLoop_pos c.name state_id g ctx c.strategies k hk hneg hpos
    constructor
    · rw [hcp, hl.1]
    · rw [hcp, hl.1]
      exact hl.2
  · intro hall
    have hl := priorityLoop_neg_snd c.name state_id g ctx c.strategies hall
    rw [hcp, hl]

/-- Closed witness for `composite_priority_mode_spec` at the
CycleElimination/DeadEnd composite on the one-node dead-end graph. -/
theorem composite_priority_mode_spec_witness :
    (compositeShouldPrune ceDeComposite 0 deadEndLeafGraph {}).2.reason
      = "Priority decision from DeadEnd: Leaf node with no outgoing edges" :=
  (composite_priority_mode_spec [] "priority" "Composite" ceDeComposite 0
    deadEndLeafGraph {} rfl
    (by
      intro hh
      have hlen : ceDeComposite.strategies.length = 2 := rfl
      rw [hh] at hlen
      simp at hlen)).2.2.2.2.1

theorem list_sum_map_fin {α β : Type} [AddCommMonoid β] (l : List α) (f : α → β) :
    (l.map f).sum = ∑ i : Fin l.length, f (l.get i) := by
  conv_lhs => rw [← List.ofFn_get l]
  rw [List.map_ofFn, List.sum_ofFn]
  rfl

/-- C8: for every non-empty well-formed vote distribution the entropy lies in
`[0, log2(candidateCount)]`, is 0 when there is exactly one candidate, and the
computed statistics satisfy `confidence + uncertainty = 1`. -/
theorem entropy_bounds (v : VoteDistribution) (hWF : v.WF) (ht : v.total_votes ≠ 0) :
    0 ≤ compute_entropy v ∧
    compute_entropy v ≤ Real.logb 2 v.candidates.length ∧
    (v.candidates.length = 1 → compute_entropy v = 0) ∧
    (get_uncertainty_stats v).confidence + (get_uncertainty_stats v).uncertainty = 1 := by
  obtain ⟨hnd, hcpos, hsum⟩ := hWF
  have hn0 : 0 < v.candidates.length := by
    cases hc : v.candidates with
    | nil =>
      exfalso
      apply ht
      rw [hsum, hc]
      rfl
    | cons a l => simp
  have htQ : (0:ℚ) < (v.total_votes : ℚ) := by exact_mod_cast Nat.pos_of_ne_zero ht
  have hcnt_pos : ∀ i : Fin v.candidates.length, 0 < (v.candidates.get i).2 :=
    fun i => hcpos _ (v.candidates.get_mem _ _)
  have hcnt_le : ∀ i : Fin v.candidates.length, (v.candidates.get i).2 ≤ v.total_votes := by
    intro i
    rw [hsum]
    exact List.single_le_sum (fun x _ => Nat.zero_le x) _
      (List.mem_map_of_mem _ (v.candidates.get_mem _ _))
  have hQpos : ∀ i : Fin v.candidates.length,
      (0:ℚ) < ((v.candidates.get i).2 : ℚ) / v.total_votes :=
    fun i => div_pos (by exact_mod_cast hcnt_pos i) htQ
  have hQle1 : ∀ i : Fin v.candidates.length,
      ((v.candidates.get i).2 : ℚ) / v.total_votes ≤ 1 := by
    intro i
    rw [div_le_one htQ]
    exact_mod_cast hcnt_le i
  have hQsum : (∑ i : Fin v.candidates.length,
      ((v.candidates.get i).2 : ℚ) / v.total_votes) = 1 := by
    rw [← Finset.sum_div, div_eq_one_iff_eq (ne_of_gt htQ)]
    have h1 : (∑ i : Fin v.candidates.length, ((v.candidates.get i).2 : ℚ))
        = ((v.candidates.map Prod.snd).map (fun m : ℕ => (m:ℚ))).sum := by
      rw [List.map_map, list_sum_map_fin]
      rfl
    rw [h1, ← Nat.cast_list_sum, ← hsum]
  have hterm : ∀ q : ℚ, 0 < q →
      (if 0 < q then -((q:ℝ) * Real.logb 2 (q:ℝ)) else 0)
        = Real.negMulLog (q:ℝ) / Real.log 2 := by
    intro q hq
    rw [if_pos hq]
    simp only [Real.negMulLog, Real.logb]
    ring
  have hent : compute_entropy v = ∑ i : Fin v.candidates.length,
      Real.negMulLog ((((v.candidates.get i).2 : ℚ) / v.total_votes : ℚ) : ℝ)
        / Real.log 2 := by
    unfold compute_entropy VoteDistribution.get_probabilities
    rw [if_neg ht, if_neg ht, List.map_map, list_sum_map_fin]
    exact Finset.sum_congr rfl fun i _ => hterm _ (hQpos i)
  have hlog2 : (0:ℝ) < Real.log 2 := Real.log_pos (by norm_num)
  have hnn : ∀ i : Fin v.candidates.length,
      0 ≤ Real.negMulLog ((((v.candidates.get i).2 : ℚ) / v.total_votes : ℚ) : ℝ) :=
    fun i => Real.negMulLog_nonneg (by exact_mod_cast (hQpos i).le)
      (by exact_mod_cast hQle1 i)
  refine ⟨?_, ?_, ?_, ?_⟩
  · rw [hent]
    exact Finset.sum_nonneg fun i _ => div_nonneg (hnn i) hlog2.le
  · have hS : (∑ i : Fin v.candidates.length,
        Real.negMulLog ((((v.candidates.get i).2 : ℚ) / v.total_votes : ℚ) : ℝ))
          ≤ Real.log (v.candidates.length) := by
      have hw : ∀ i ∈ (Finset.univ : Finset (Fin v.candidates.length)),
          (0:ℝ) ≤ ((v.candidates.length : ℝ))⁻¹ := by
        intro i _
        positivity
      have hw1 : ∑ _i : Fin v.candidates.length, ((v.candidates.length:ℝ))⁻¹ = 1 := by
        rw [Finset.sum_const, Finset.card_univ, Fintype.card_fin, nsmul_eq_mul]
        have : ((v.candidates.length : ℝ)) ≠ 0 := by
          exact_mod_cast Nat.pos_iff_ne_zero.mp hn0
        field_simp
      have hmem : ∀ i ∈ (Finset.univ : Finset (Fin v.candidates.length)),
          ((((v.candidates.get i).2 : ℚ) / v.total_votes : ℚ) : ℝ) ∈ Set.Ici (0:ℝ) := by
        intro i _
        exact Set.mem_Ici.mpr (by exact_mod_cast (hQpos i).le)
      have hj := Real.concaveOn_negMulLog.le_map_sum hw hw1 hmem
      have hsum1 : (∑ i : Fin v.candidates.length,
          ((((v.candidates.get i).2 : ℚ) / v.total_votes : ℚ) : ℝ)) = 1 := by
        rw [← Rat.cast_sum, hQsum, Rat.cast_one]
      have hrhs : (∑ i : Fin v.candidates.length, ((v.candidates.length:ℝ))⁻¹
            • ((((v.candidates.get i).2 : ℚ) / v.total_votes : ℚ) : ℝ))
          = ((v.candidates.length:ℝ))⁻¹ := by
        simp only [smul_eq_mul]
        rw [← Finset.mul_sum, hsum1, mul_one]
      rw [hrhs] at hj
      have hlhs : (∑ i : Fin v.candidates.length, ((v.candidates.length:ℝ))⁻¹
            • Real.negMulLog ((((v.candidates.get i).2 : ℚ) / v.total_votes : ℚ) : ℝ))
          = ((v.candidates.length:ℝ))⁻¹ * ∑ i : Fin v.candidates.length,
              Real.negMulLog ((((v.candidates.get i).2 : ℚ) / v.total_votes : ℚ) : ℝ) := by
        simp only [smul_eq_mul]
        rw [Finset.mul_sum]
      rw [hlhs] at hj
      have hnml : Real.negMulLog (((v.candidates.length:ℝ))⁻¹)
          = ((v.candidates.length:ℝ))⁻¹ * Real.log (v.candidates.length) := by
        simp only [Real.negMulLog, Real.log_inv]
        ring
      rw [hnml] at hj
      have hnR : (0:ℝ) < ((v.candidates.length:ℝ))⁻¹ := by
        have : (0:ℝ) < (v.candidates.length:ℝ) := by exact_mod_cast hn0
        positivity
      exact (mul_le_mul_left hnR).mp hj
    rw [hent, ← Finset.sum_div]
    rw [show Real.logb 2 (v.candidates.length : ℝ)
      = Real.log (v.candidates.length : ℝ) / Real.log 2 from rfl]
    exact (div_le_div_iff_of_pos_right hlog2).mpr hS
  · intro h1
    obtain ⟨a, ha⟩ := List.length_eq_one.mp h1
    have ha2 : v.total_votes = a.2 := by
      rw [hsum, ha]
      simp
    have ha2pos : 0 < a.2 := hcpos a (by rw [ha]; exact List.mem_singleton_self a)
    have haq : ((a.2 : ℚ) / (v.total_votes:ℚ)) = 1 := by
      rw [ha2]
      have : ((a.2 : ℚ)) ≠ 0 := by exact_mod_cast ne_of_gt ha2pos
      field_simp
    unfold compute_entropy VoteDistribution.get_probabilities
    rw [if_neg ht, if_neg ht, ha]
    simp [haq]
  · show v.get_confidence + (1 - v.get_confidence) = 1
    ring

/-- Closed witness for `entropy_bounds` at the spec's worked example
(4 votes for "a", 1 vote for "b"). -/
theorem entropy_bounds_witness :
    0 ≤ compute_entropy ⟨[("a", 4), ("b", 1)], 5⟩ ∧
    compute_entropy ⟨[("a", 4), ("b", 1)], 5⟩
      ≤ Real.logb 2 (VoteDistribution.candidates ⟨[("a", 4), ("b", 1)], 5⟩).length ∧
    ((VoteDistribution.candidates ⟨[("a", 4), ("b", 1)], 5⟩).length = 1 →
      compute_entropy ⟨[("a", 4), ("b", 1)], 5⟩ = 0) ∧
    (get_uncertainty_stats ⟨[("a", 4), ("b", 1)], 5⟩).confidence
      + (get_uncertainty_stats ⟨[("a", 4), ("b", 1)], 5⟩).uncertainty = 1 :=
  entropy_bounds ⟨[("a", 4), ("b", 1)], 5⟩ (by decide) (by decide)

theorem mem_foldl_union {β : Type} (f : β → Finset ℕ) :
    ∀ (l : List β) (init : Finset ℕ) (x : ℕ),
      x ∈ l.foldl (fun s c => s ∪ f c) init ↔ x ∈ init ∨ ∃ c ∈ l, x ∈ f c
  | [], init, x => by simp
  | c :: t, init, x => by
    rw [List.foldl_cons, mem_foldl_union f t (init ∪ f c) x]
    simp only [Finset.mem_union, List.mem_cons]
    constructor
    · rintro ((h | h) | ⟨d, hd, hx⟩)
      · exact Or.inl h
      · exact Or.inr ⟨c, Or.inl rfl, h⟩
      · exact Or.inr ⟨d, Or.inr hd, hx⟩
    · rintro (h | ⟨d, (rfl | hd), hx⟩)
      · exact Or.inl (Or.inl h)
      · exact Or.inl (Or.inr hx)
      · exact Or.inr ⟨d, hd, hx⟩

theorem mem_cycleNodes {g : TrajectoryGraph} {x : ℕ} :
    x ∈ g.cycleNodes ↔ ∃ c ∈ g.detect_cycles, x ∈ c.dropLast := by
  unfold TrajectoryGraph.cycleNodes
  rw [mem_foldl_union]
  simp

theorem foldl_insert_chain (l : List GraphNode) (cond : GraphNode → Prop)
    [DecidablePred cond] (f : Finset ℕ → GraphNode → Finset ℕ)
    (hf : ∀ pr n, f pr n = if cond n then insert n.state_id pr else pr) :
    ∀ (init : Finset ℕ) (x : ℕ),
      x ∈ l.foldl f init ↔ x ∈ init ∨ ∃ n ∈ l, cond n ∧ n.state_id = x := by
  induction l with
  | nil => simp
  | cons n t ih =>
    intro init x
    rw [List.foldl_cons, hf, ih]
    by_cases hc : cond n
    · simp only [if_pos hc, Finset.mem_insert, List.mem_cons]
      constructor
      · rintro ((rfl | h) | ⟨m, hm, hcm, rfl⟩)
        · exact Or.inr ⟨n, Or.inl rfl, hc, rfl⟩
        · exact Or.inl h
        · exact Or.inr ⟨m, Or.inr hm, hcm, rfl⟩
      · rintro (h | ⟨m, (rfl | hm), hcm, rfl⟩)
        · exact Or.inl (Or.inr h)
        · exact Or.inl (Or.inl rfl)
        · exact Or.inr ⟨m, hm, hcm, rfl⟩
    · simp only [if_neg hc, List.mem_cons]
      constructor
      · rintro (h | ⟨m, hm, hcm, rfl⟩)
        · exact Or.inl h
        · exact Or.inr ⟨m, Or.inr hm, hcm, rfl⟩
      · rintro (h | ⟨m, (rfl | hm), hcm, rfl⟩)
        · exact Or.inl h
        · exact absurd hcm hc
        · exact Or.inr ⟨m, hm, hcm, rfl⟩

theorem hasNode_iff_mem_map {g : TrajectoryGraph} {sid : ℕ} :
    g.hasNode sid = true ↔ sid ∈ g.nodes.map (fun n => n.state_id) := by
  unfold TrajectoryGraph.hasNode TrajectoryGraph.findNode
  rw [Option.isSome_iff_exists]
  constructor
  · rintro ⟨n, hn⟩
    have hmem := List.mem_of_find?_eq_some hn
    have hid := List.find?_some hn
    simp only [beq_iff_eq] at hid
    exact hid ▸ List.mem_map_of_mem _ hmem
  · rintro h
    rw [List.mem_map] at h
    obtain ⟨n, hn, rfl⟩ := h
    have : (g.nodes.find? (fun m => m.state_id == n.state_id)).isSome = true := by
      rw [List.find?_isSome]
      exact ⟨n, hn, by simp⟩
    rwa [Option.isSome_iff_exists] at this

theorem find_node_of_mem_aux :
    ∀ (l : List GraphNode), (l.map (fun n => n.state_id)).Nodup →
      ∀ {n : GraphNode}, n ∈ l →
        l.find? (fun m => m.state_id == n.state_id) = some n := by
  intro l
  induction l with
  | nil => intro _ n hn; simp at hn
  | cons m t ih =>
    intro hnd n hn
    simp only [List.map_cons, List.nodup_cons] at hnd
    rcases List.mem_cons.mp hn with rfl | hn'
    · simp [List.find?]
    · have hne : m.state_id ≠ n.state_id := by
        intro he
        exact hnd.1 (he ▸ List.mem_map_of_mem _ hn')
      have hb : (m.state_id == n.state_id) = false := by
        simpa using fun hh => hne hh
      rw [List.find?, hb]
      exact ih hnd.2 hn'

theorem findNode_of_mem {g : TrajectoryGraph}
    (hnd : (g.nodes.map (fun n => n.state_id)).Nodup) {n : GraphNode}
    (hn : n ∈ g.nodes) : g.findNode n.state_id = some n :=
  find_node_of_mem_aux g.nodes hnd hn

theorem findEdge_mem {g : TrajectoryGraph} {eid : ℕ} {e : GraphEdge}
    (h : g.findEdge eid = some e) : e ∈ g.edges :=
  List.mem_of_find?_eq_some h

theorem foldl_preserve_mem {α σ : Type} (P : σ → Prop) :
    ∀ (l : List α) (f : σ → α → σ),
      (∀ s a, a ∈ l → P s → P (f s a)) → ∀ s, P s → P (l.foldl f s)
  | [], _, _, _, hs => hs
  | a :: t, f, hstep, s, hs => by
    rw [List.foldl_cons]
    exact foldl_preserve_mem P t f
      (fun s' b hb h => hstep s' b (List.mem_cons_of_mem _ hb) h) _
      (hstep s a (List.mem_cons_self _ _) hs)

theorem dfsCycles_succ (g : TrajectoryGraph) (fuel state_id : ℕ)
    (visited rec_stack path : List ℕ) (cycles : List (List ℕ)) :
    TrajectoryGraph.dfsCycles g (fuel + 1) state_id visited rec_stack path cycles
      = (g.adj state_id).foldl
          (fun acc eid =>
            match g.findEdge eid with
            | none => acc
            | some edge =>
              if edge.target ∉ acc.1 then
                TrajectoryGraph.dfsCycles g fuel edge.target acc.1
                  (rec_stack ++ [state_id]) (path ++ [state_id]) acc.2
              else if edge.target ∈ rec_stack ++ [state_id] then
                (acc.1, acc.2 ++ [(path ++ [state_id]).drop
                    ((path ++ [state_id]).indexOf edge.target) ++ [edge.target]])
              else acc)
          (visited ++ [state_id], cycles) := by
  rw [TrajectoryGraph.dfsCycles]

theorem dfsCycles_cycles_hasNode (g : TrajectoryGraph)
    (hWFe : ∀ e ∈ g.edges, g.hasNode e.target = true) :
    ∀ (fuel state_id : ℕ) (visited rec_stack path : List ℕ)
      (cycles : List (List ℕ)),
      g.hasNode state_id = true → (∀ x ∈ path, g.hasNode x = true) →
      (∀ c ∈ cycles, ∀ x ∈ c, g.hasNode x = true) →
      ∀ c ∈ (TrajectoryGraph.dfsCycles g fuel state_id visited rec_stack path cycles).2,
        ∀ x ∈ c, g.hasNode x = true := by
  intro fuel
  induction fuel with
  | zero =>
    intro sid visited rs path cycles _ _ hcycles c hc x hx
    exact hcycles c hc x hx
  | succ fuel ih =>
    intro sid visited rs path cycles hsid hpath hcycles
    rw [dfsCycles_succ]
    have hpath' : ∀ x ∈ path ++ [sid], g.hasNode x = true := by
      intro x hx
      rcases List.mem_append.mp hx with h | h
      · exact hpath x h
      · rw [List.mem_singleton.mp h]
        exact hsid
    refine foldl_preserve_mem
      (fun acc : List ℕ × List (List ℕ) => ∀ c ∈ acc.2, ∀ x ∈ c, g.hasNode x = true)
      (g.adj sid) _ ?_ (visited ++ [sid], cycles) hcycles
    intro acc eid _ hacc
    cases hfe : g.findEdge eid with
    | none => simpa using hacc
    | some edge =>
      have htgt : g.hasNode edge.target = true := hWFe edge (findEdge_mem hfe)
      by_cases hv : edge.target ∈ acc.1
      · by_cases hrs : edge.target ∈ rs ++ [sid]
        · simp only [hv, not_true_eq_false, if_false, hrs, if_true]
          intro c hc x hx
          rcases List.mem_append.mp hc with h | h
          · exact hacc c h x hx
          · rw [List.mem_singleton.mp h] at hx
            rcases List.mem_append.mp hx with h' | h'
            · exact hpath' x (List.mem_of_mem_drop h')
            · rw [List.mem_singleton.mp h']
              exact htgt
        · simpa [hv, hrs] using hacc
      · simp only [hv, not_false_eq_true, if_true]
        exact ih edge.target acc.1 (rs ++ [sid]) (path ++ [sid]) acc.2 htgt hpath' hacc

theorem detect_cycles_hasNode (g : TrajectoryGraph)
    (hWFe : ∀ e ∈ g.edges, g.hasNode e.target = true) :
    ∀ c ∈ g.detect_cycles, ∀ x ∈ c, g.hasNode x = true := by
  unfold TrajectoryGraph.detect_cycles
  refine foldl_preserve_mem
    (fun acc : List ℕ × List (List ℕ) => ∀ c ∈ acc.2, ∀ x ∈ c, g.hasNode x = true)
    (g.nodes.map (fun n => n.state_id)) _ ?_ ([], []) (by simp)
  intro acc sid hsid hacc
  by_cases hv : sid ∈ acc.1
  · simpa [hv] using hacc
  · simp only [hv, not_false_eq_true, if_true]
    exact dfsCycles_cycles_hasNode g hWFe _ sid acc.1 [] [] acc.2
      (hasNode_iff_mem_map.mpr hsid) (by simp) hacc

theorem cycleNodes_hasNode (g : TrajectoryGraph)
    (hWFe : ∀ e ∈ g.edges, g.hasNode e.target = true) :
    ∀ x ∈ g.cycleNodes, g.hasNode x = true := by
  intro x hx
  obtain ⟨c, hc, hxc⟩ := mem_cycleNodes.mp hx
  exact detect_cycles_hasNode g hWFe c hc x (List.dropLast_subset c hxc)

theorem mem_get_prunable_branches {g : TrajectoryGraph} {x : ℕ} :
    x ∈ g.get_prunable_branches ↔
      (∃ n ∈ g.nodes,
        (n.is_pruned = false ∧ (g.adj n.state_id = [] ∨
          (g.adj n.state_id).all (fun eid => !(g.edgeSuccessD eid)) = true)) ∧
        n.state_id = x) ∨
      (x ∈ g.cycleNodes ∧ g.hasNode x = true ∧ g.isPrunedD x = false ∧
        (g.adj x).any (fun eid =>
          match g.findEdge eid with
          | some edge => decide (edge.target ∉ g.cycleNodes) && edge.success
          | none => false) = false) := by
  have hf : ∀ (pr : Finset ℕ) (n : GraphNode),
      (if n.is_pruned then pr
        else if g.adj n.state_id = [] then insert n.state_id pr
        else if (g.adj n.state_id).all (fun eid => !(g.edgeSuccessD eid)) then
          insert n.state_id pr
        else pr)
      = if (n.is_pruned = false ∧ (g.adj n.state_id = [] ∨
          (g.adj n.state_id).all (fun eid => !(g.edgeSuccessD eid)) = true)) then
          insert n.state_id pr
        else pr := by
    intro pr n
    by_cases h1 : n.is_pruned
    · simp [h1]
    · by_cases h2 : g.adj n.state_id = []
      · simp [h1, h2]
      · by_cases h3 : (g.adj n.state_id).all (fun eid => !(g.edgeSuccessD eid)) = true
        · simp [h1, h2, h3]
        · simp [h1, h2, h3]
  have hfold := foldl_insert_chain g.nodes
    (fun n => n.is_pruned = false ∧ (g.adj n.state_id = [] ∨
      (g.adj n.state_id).all (fun eid => !(g.edgeSuccessD eid)) = true))
    _ hf ∅ x
  simp only [TrajectoryGraph.get_prunable_branches, Finset.mem_union, Finset.mem_filter]
  rw [hfold]
  simp only [Finset.not_mem_empty, false_or]
  constructor
  · rintro (h | ⟨hcyc, h1, h2, h3⟩)
    · exact Or.inl h
    · exact Or.inr ⟨hcyc, h1, Bool.not_eq_true _ ▸ (by simpa using h2),
        by simpa using h3⟩
  · rintro (h | ⟨hcyc, h1, h2, h3⟩)
    · exact Or.inl h
    · exact Or.inr ⟨hcyc, h1, by simpa using h2, by simpa using h3⟩

theorem isPrunedD_of_mem {g : TrajectoryGraph}
    (hnd : (g.nodes.map (fun n => n.state_id)).Nodup) {n : GraphNode}
    (hn : n ∈ g.nodes) : g.isPrunedD n.state_id = n.is_pruned := by
  unfold TrajectoryGraph.isPrunedD
  rw [findNode_of_mem hnd hn]
  rfl

/-- C3: `get_prunable_branches` returns exactly the union of (a) non-pruned
nodes with no outgoing edges, (b) non-pruned nodes all of whose outgoing edges
have `success=false`, and (c) non-pruned members of some detected cycle that
have no outgoing `success=true` edge whose target lies outside the union of
all cycle-member sets. -/
theorem get_prunable_branches_spec (g : TrajectoryGraph) (hWF : g.WF) :
    g.get_prunable_branches
      = ((g.nodes.map (fun n => n.state_id)).toFinset.filter
            (fun sid => g.isPrunedD sid = false ∧ g.adj sid = []))
        ∪ ((g.nodes.map (fun n => n.state_id)).toFinset.filter
            (fun sid => g.isPrunedD sid = false ∧
              ∀ eid ∈ g.adj sid, g.edgeSuccessD eid = false))
        ∪ (g.cycleNodes.filter
            (fun sid => g.isPrunedD sid = false ∧
              ¬ ∃ eid ∈ g.adj sid, ∃ e ∈ g.edges, g.findEdge eid = some e ∧
                e.target ∉ g.cycleNodes ∧ e.success = true)) := by
  obtain ⟨w1, w2, w3, w4, w5, w6, w7, w8, w9⟩ := hWF
  have hWFe : ∀ e ∈ g.edges, g.hasNode e.target = true := fun e he => (w4 e he).2.2
  ext x
  rw [mem_get_prunable_branches]
  simp only [Finset.mem_union, Finset.mem_filter, List.mem_toFinset, List.mem_map]
  constructor
  · rintro (⟨n, hn, ⟨hp, hor⟩, rfl⟩ | ⟨hcyc, _, hpr, hany⟩)
    · have hpd : g.isPrunedD n.state_id = false := by
        rw [isPrunedD_of_mem w1 hn, hp]
      rcases hor with hleaf | hall
      · exact Or.inl (Or.inl ⟨⟨n, hn, rfl⟩, hpd, hleaf⟩)
      · refine Or.inl (Or.inr ⟨⟨n, hn, rfl⟩, hpd, ?_⟩)
        intro eid heid
        simpa using List.all_eq_true.mp hall eid heid
    · refine Or.inr ⟨hcyc, hpr, ?_⟩
      rintro ⟨eid, heid, e, _, hfe, htgt, hsuc⟩
      have hTrue : (g.adj x).any (fun eid =>
          match g.findEdge eid with
          | some edge => decide (edge.target ∉ g.cycleNodes) && edge.success
          | none => false) = true := by
        rw [List.any_eq_true]
        refine ⟨eid, heid, ?_⟩
        rw [hfe]
        simp [htgt, hsuc]
      rw [hTrue] at hany
      exact Bool.noConfusion hany
  · rintro ((⟨⟨n, hn, rfl⟩, hpd, hleaf⟩ | ⟨⟨n, hn, rfl⟩, hpd, hall⟩) | ⟨hcyc, hpr, hnex⟩)
    · refine Or.inl ⟨n, hn, ⟨?_, Or.inl hleaf⟩, rfl⟩
      rw [isPrunedD_of_mem w1 hn] at hpd
      exact hpd
    · have hp : n.is_pruned = false := by
        rw [isPrunedD_of_mem w1 hn] at hpd
        exact hpd
      refine Or.inl ⟨n, hn, ⟨hp, Or.inr ?_⟩, rfl⟩
      rw [List.all_eq_true]
      intro eid heid
      simpa using hall eid heid
    · refine Or.inr ⟨hcyc, cycleNodes_hasNode g hWFe x hcyc, hpr, ?_⟩
      rw [Bool.eq_false_iff]
      intro hany
      obtain ⟨eid, heid, hmatch⟩ := List.any_eq_true.mp hany
      cases hfe : g.findEdge eid with
      | none => rw [hfe] at hmatch; exact Bool.noConfusion hmatch
      | some e =>
        rw [hfe] at hmatch
        rw [Bool.and_eq_true, decide_eq_true_eq] at hmatch
        exact hnex ⟨eid, heid, e, findEdge_mem hfe, hfe, hmatch.1, hmatch.2⟩

/-- Closed witness for `get_prunable_branches_spec` on the (well-formed)
three-node cycle graph. -/
theorem get_prunable_branches_spec_witness :
    triangleGraph.get_prunable_branches
      = ((triangleGraph.nodes.map (fun n => n.state_id)).toFinset.filter
            (fun sid => triangleGraph.isPrunedD sid = false ∧ triangleGraph.adj sid = []))
        ∪ ((triangleGraph.nodes.map (fun n => n.state_id)).toFinset.filter
            (fun sid => triangleGraph.isPrunedD sid = false ∧
              ∀ eid ∈ triangleGraph.adj sid, triangleGraph.edgeSuccessD eid = false))
        ∪ (triangleGraph.cycleNodes.filter
            (fun sid => triangleGraph.isPrunedD sid = false ∧
              ¬ ∃ eid ∈ triangleGraph.adj sid, ∃ e ∈ triangleGraph.edges,
                triangleGraph.findEdge eid = some e ∧
                e.target ∉ triangleGraph.cycleNodes ∧ e.success = true)) :=
  get_prunable_branches_spec triangleGraph (by decide)

/-- C1 counterexample: in the two-node cycle `0 → 1 → 0`, pruning the branch
of state 1 also prunes its strict ancestor 0 (which is reachable from 1), and
a second `prune_branch(1)` call on the already-pruned node re-traverses and
returns the full two-element reachable set, not an empty or singleton set.
This refutes both "strict ancestors of x remain unpruned" and "a second call
on an already-pruned node returns an empty or singleton set". -/
theorem prune_branch_second_call_counterexample :
    (cycleTwoGraph.findEdge 0).map (fun e => (e.source, e.target)) = some (0, 1) ∧
    (0 : ℕ) ≠ 1 ∧
    ((cycleTwoGraph.prune_branch 1).1.findNode 0).map (fun n => n.is_pruned)
      = some true ∧
    ((cycleTwoGraph.prune_branch 1).1.prune_branch 1).2
      = Except.ok ({0, 1} : Finset ℕ) ∧
    ({0, 1} : Finset ℕ).card = 2 := by
  refine ⟨by decide, by decide, by decide, by rfl, by decide⟩

namespace TrajectoryGraph

theorem markSet_adj (g : TrajectoryGraph) (S : Finset ℕ) (sid : ℕ) :
    (g.markSet S).adj sid = g.adj sid := rfl

theorem markSet_findEdge (g : TrajectoryGraph) (S : Finset ℕ) (eid : ℕ) :
    (g.markSet S).findEdge eid = g.findEdge eid := rfl

theorem markSet_hasNode (g : TrajectoryGraph) (S : Finset ℕ) (sid : ℕ) :
    (g.markSet S).hasNode sid = g.hasNode sid := by
  unfold hasNode findNode markSet
  rw [List.find?_map]
  have hc : ((fun n : GraphNode => n.state_id == sid) ∘ fun n : GraphNode =>
      if n.state_id ∈ S then { n with is_pruned := true } else n)
      = fun n : GraphNode => n.state_id == sid := by
    funext n
    by_cases h : n.state_id ∈ S <;> simp [h, Function.comp]
  rw [hc]
  cases List.find? (fun n => n.state_id == sid) g.nodes <;> rfl

theorem markSet_length (g : TrajectoryGraph) (S : Finset ℕ) :
    (g.markSet S).nodes.length = g.nodes.length := by
  unfold markSet
  exact List.length_map _ _

theorem markSet_empty (g : TrajectoryGraph) : g.markSet ∅ = g := by
  unfold markSet
  have hmap : g.nodes.map (fun n =>
      if n.state_id ∈ (∅ : Finset ℕ) then { n with is_pruned := true } else n)
      = g.nodes := by
    calc g.nodes.map (fun n =>
          if n.state_id ∈ (∅ : Finset ℕ) then { n with is_pruned := true } else n)
        = g.nodes.map id := List.map_congr_left (fun n _ => by simp)
      _ = g.nodes := List.map_id _
  rw [hmap]

theorem markPruned_markSet (g : TrajectoryGraph) (S : Finset ℕ) (s : ℕ) :
    (g.markSet S).markPruned s = g.markSet (insert s S) := by
  unfold markSet markPruned
  simp only [List.map_map]
  congr 1
  apply List.map_congr_left
  intro n _
  simp only [Function.comp]
  split_ifs
  all_goals first | rfl | simp_all [Finset.mem_insert]

theorem markSet_congr (g : TrajectoryGraph) {S T : Finset ℕ} (h : S = T) :
    g.markSet S = g.markSet T := by rw [h]

end TrajectoryGraph

namespace TrajectoryGraph

theorem RA_mono {g : TrajectoryGraph} {V W : Finset ℕ} {s y : ℕ} (hVW : V ⊆ W)
    (h : ReachAvoid g W s y) : ReachAvoid g V s y := by
  induction h with
  | refl hs hv => exact .refl _ hs (fun hin => hv (hVW hin))
  | tail _ hstep hc hcv ih => exact .tail ih hstep hc (fun hin => hcv (hVW hin))

theorem RA_prepend {g : TrajectoryGraph} {V : Finset ℕ} {s t y : ℕ}
    (hstep : g.Step s t) (hs : g.hasNode s = true) (hsv : s ∉ V)
    (h : ReachAvoid g V t y) : ReachAvoid g V s y := by
  induction h with
  | refl ha hv => exact .tail (.refl s hs hsv) hstep ha hv
  | tail _ hstep2 hc hcv ih => exact .tail ih hstep2 hc hcv

theorem RA_toReach {g : TrajectoryGraph} {V : Finset ℕ} {s y : ℕ}
    (h : ReachAvoid g V s y) : g.Reach s y := by
  induction h with
  | refl _ _ => exact Relation.ReflTransGen.refl
  | tail _ hstep _ _ ih => exact Relation.ReflTransGen.tail ih hstep

theorem pruneRec_succ (fuel : ℕ) (g : TrajectoryGraph) (sid : ℕ) (pruned : Finset ℕ) :
    TrajectoryGraph.pruneRec (fuel + 1) g sid pruned
      = if sid ∈ pruned ∨ ¬ g.hasNode sid then (g, pruned)
        else
          ((g.markPruned sid).adj sid).foldl
            (fun acc eid =>
              match acc.1.findEdge eid with
              | none => acc
              | some edge => TrajectoryGraph.pruneRec fuel acc.1 edge.target acc.2)
            (g.markPruned sid, insert sid pruned) := by
  rw [TrajectoryGraph.pruneRec]

end TrajectoryGraph

theorem pruneFold_spec (g : TrajectoryGraph) (fuel : ℕ)
    (ih : ∀ (T V : Finset ℕ) (s : ℕ),
      (((g.nodes.map (fun n => n.state_id)).toFinset \ V).card < fuel) →
      ∃ W, TrajectoryGraph.pruneRec fuel (g.markSet T) s V
          = (g.markSet (T ∪ (W \ V)), W) ∧
        V ⊆ W ∧
        (g.hasNode s = true → s ∉ V → s ∈ W) ∧
        (∀ y ∈ W, y ∉ V → TrajectoryGraph.ReachAvoid g V s y) ∧
        (∀ y ∈ W, y ∉ V → ∀ z, g.Step y z → g.hasNode z = true → z ∈ W)) :
    ∀ (es : List ℕ) (T W : Finset ℕ),
      (((g.nodes.map (fun n => n.state_id)).toFinset \ W).card < fuel) →
      ∃ Wf, (es.foldl (fun acc eid =>
            match acc.1.findEdge eid with
            | none => acc
            | some edge => TrajectoryGraph.pruneRec fuel acc.1 edge.target acc.2)
          (g.markSet T, W))
        = (g.markSet (T ∪ (Wf \ W)), Wf) ∧
        W ⊆ Wf ∧
        (∀ eid ∈ es, ∀ e, g.findEdge eid = some e → g.hasNode e.target = true →
          e.target ∈ Wf) ∧
        (∀ y ∈ Wf, y ∉ W → ∃ eid ∈ es, ∃ e, g.findEdge eid = some e ∧
          TrajectoryGraph.ReachAvoid g W e.target y) ∧
        (∀ y ∈ Wf, y ∉ W → ∀ z, g.Step y z → g.hasNode z = true → z ∈ Wf) := by
  intro es
  induction es with
  | nil =>
    intro T W _
    refine ⟨W, ?_, Finset.Subset.refl W, ?_, ?_, ?_⟩
    · rw [Finset.sdiff_self, Finset.union_empty]
      rfl
    · intro eid heid
      simp at heid
    · intro y hy hyW
      exact absurd hy hyW
    · intro y hy hyW
      exact absurd hy hyW
  | cons eid rest ihes =>
    intro T W hfu
    rw [List.foldl_cons, TrajectoryGraph.markSet_findEdge]
    cases hfe : g.findEdge eid with
    | none =>
      obtain ⟨Wf, heq, hsub, htgts, hsound, hclosed⟩ := ihes T W hfu
      refine ⟨Wf, heq, hsub, ?_, ?_, hclosed⟩
      · intro eid' heid' e' hfe' htgt'
        rcases List.mem_cons.mp heid' with rfl | hmem
        · rw [hfe] at hfe'
          exact Option.noConfusion hfe'
        · exact htgts eid' hmem e' hfe' htgt'
      · intro y hy hyW
        obtain ⟨eid', hmem', e', hfe', hra⟩ := hsound y hy hyW
        exact ⟨eid', List.mem_cons_of_mem _ hmem', e', hfe', hra⟩
    | some e =>
      obtain ⟨W₁, heq1, hsub1, hroot1, hsound1, hclosed1⟩ := ih T W e.target hfu
      dsimp only
      rw [heq1]
      have hfu1 : (((g.nodes.map (fun n => n.state_id)).toFinset \ W₁).card < fuel) :=
        lt_of_le_of_lt
          (Finset.card_le_card (Finset.sdiff_subset_sdiff (Finset.Subset.refl _) hsub1))
          hfu
      obtain ⟨W₂, heq2, hsub2, htgts2, hsound2, hclosed2⟩ := ihes (T ∪ (W₁ \ W)) W₁ hfu1
      rw [heq2]
      refine ⟨W₂, ?_, hsub1.trans hsub2, ?_, ?_, ?_⟩
      · apply congrArg (fun X => (g.markSet X, W₂))
        ext y
        simp only [Finset.mem_union, Finset.mem_sdiff]
        constructor
        · rintro ((hy | ⟨h1, h2⟩) | ⟨h1, h2⟩)
          · exact Or.inl hy
          · exact Or.inr ⟨hsub2 h1, h2⟩
          · exact Or.inr ⟨h1, fun hw => h2 (hsub1 hw)⟩
        · rintro (hy | ⟨h1, h2⟩)
          · exact Or.inl (Or.inl hy)
          · by_cases hw1 : y ∈ W₁
            · exact Or.inl (Or.inr ⟨hw1, h2⟩)
            · exact Or.inr ⟨h1, hw1⟩
      · intro eid' heid' e' hfe' htgt'
        rcases List.mem_cons.mp heid' with rfl | hmem
        · rw [hfe] at hfe'
          obtain rfl : e = e' := by injection hfe'
          by_cases hw : e.target ∈ W
          · exact hsub2 (hsub1 hw)
          · exact hsub2 (hroot1 htgt' hw)
        · exact htgts2 eid' hmem e' hfe' htgt'
      · intro y hy hyW
        by_cases hw1 : y ∈ W₁
        · exact ⟨eid, List.mem_cons_self _ _, e, hfe, hsound1 y hw1 hyW⟩
        · obtain ⟨eid', hmem', e', hfe', hra⟩ := hsound2 y hy hw1
          exact ⟨eid', List.mem_cons_of_mem _ hmem', e', hfe',
            TrajectoryGraph.RA_mono hsub1 hra⟩
      · intro y hy hyW z hstep hz
        by_cases hw1 : y ∈ W₁
        · exact hsub2 (hclosed1 y hw1 hyW z hstep hz)
        · exact hclosed2 y hy hw1 z hstep hz

theorem pruneRec_spec (g : TrajectoryGraph) :
    ∀ (fuel : ℕ) (T V : Finset ℕ) (s : ℕ),
      (((g.nodes.map (fun n => n.state_id)).toFinset \ V).card < fuel) →
      ∃ W, TrajectoryGraph.pruneRec fuel (g.markSet T) s V
          = (g.markSet (T ∪ (W \ V)), W) ∧
        V ⊆ W ∧
        (g.hasNode s = true → s ∉ V → s ∈ W) ∧
        (∀ y ∈ W, y ∉ V → TrajectoryGraph.ReachAvoid g V s y) ∧
        (∀ y ∈ W, y ∉ V → ∀ z, g.Step y z → g.hasNode z = true → z ∈ W) := by
  intro fuel
  induction fuel with
  | zero =>
    intro T V s hfu
    exact absurd hfu (Nat.not_lt_zero _)
  | succ fuel ih =>
    intro T V s hfu
    rw [TrajectoryGraph.pruneRec_succ]
    by_cases hB : s ∈ V ∨ ¬ (g.markSet T).hasNode s
    · rw [if_pos hB]
      rw [TrajectoryGraph.markSet_hasNode] at hB
      refine ⟨V, ?_, Finset.Subset.refl V, ?_, ?_, ?_⟩
      · rw [Finset.sdiff_self, Finset.union_empty]
      · intro hs hsv
        rcases hB with h | h
        · exact absurd h hsv
        · exact absurd hs h
      · intro y hy hyV
        exact absurd hy hyV
      · intro y hy hyV
        exact absurd hy hyV
    · rw [if_neg hB]
      rw [TrajectoryGraph.markSet_hasNode] at hB
      push_neg at hB
      obtain ⟨hsV, hsN⟩ := hB
      rw [TrajectoryGraph.markPruned_markSet, TrajectoryGraph.markSet_adj]
      have hsmem : s ∈ (g.nodes.map (fun n => n.state_id)).toFinset := by
        rw [List.mem_toFinset]
        exact hasNode_iff_mem_map.mp hsN
      have hcard : (((g.nodes.map (fun n => n.state_id)).toFinset \ insert s V).card
          < fuel) := by
        have h1 : (g.nodes.map (fun n => n.state_id)).toFinset \ insert s V
            = ((g.nodes.map (fun n => n.state_id)).toFinset \ V).erase s := by
          ext y
          simp only [Finset.mem_sdiff, Finset.mem_insert, Finset.mem_erase]
          tauto
        have h2 : s ∈ (g.nodes.map (fun n => n.state_id)).toFinset \ V :=
          Finset.mem_sdiff.mpr ⟨hsmem, hsV⟩
        rw [h1, Finset.card_erase_of_mem h2]
        have h3 : 0 < ((g.nodes.map (fun n => n.state_id)).toFinset \ V).card :=
          Finset.card_pos.mpr ⟨s, h2⟩
        omega
      obtain ⟨Wf, heqF, hsubF, htgtsF, hsoundF, hclosedF⟩ :=
        pruneFold_spec g fuel ih (g.adj s) (insert s T) (insert s V) hcard
      rw [heqF]
      have hsW : s ∈ Wf := hsubF (Finset.mem_insert_self s V)
      refine ⟨Wf, ?_, (Finset.subset_insert s V).trans hsubF, fun _ _ => hsW, ?_, ?_⟩
      · apply congrArg (fun X => (g.markSet X, Wf))
        ext y
        simp only [Finset.mem_union, Finset.mem_insert, Finset.mem_sdiff]
        constructor
        · rintro ((rfl | hy) | ⟨h1, h2⟩)
          · exact Or.inr ⟨hsW, hsV⟩
          · exact Or.inl hy
          · exact Or.inr ⟨h1, fun hv => h2 (Or.inr hv)⟩
        · rintro (hy | ⟨h1, h2⟩)
          · exact Or.inl (Or.inr hy)
          · by_cases hys : y = s
            · exact Or.inl (Or.inl hys)
            · exact Or.inr ⟨h1, fun hv => hv.elim hys h2⟩
      · intro y hy hyV
        by_cases hys : y = s
        · subst hys
          exact .refl y hsN hyV
        · have hy' : y ∉ insert s V := by
            simp only [Finset.mem_insert]
            exact fun hv => hv.elim hys hyV
          obtain ⟨eid, heid, e, hfe, hra⟩ := hsoundF y hy hy'
          have hstep : g.Step s e.target := ⟨eid, heid, e, hfe, rfl⟩
          exact TrajectoryGraph.RA_prepend hstep hsN hsV
            (TrajectoryGraph.RA_mono (Finset.subset_insert s V) hra)
      · intro y hy hyV z hstep hz
        by_cases hys : y = s
        · subst hys
          obtain ⟨eid, heid, e, hfe, rfl⟩ := hstep
          exact htgtsF eid heid e hfe hz
        · have hy' : y ∉ insert s V := by
            simp only [Finset.mem_insert]
            exact fun hv => hv.elim hys hyV
          exact hclosedF y hy hy' z hstep hz

theorem mem_iff_RA {g : TrajectoryGraph} {W : Finset ℕ} {x : ℕ}
    (hx : x ∈ W)
    (hsound : ∀ y ∈ W, TrajectoryGraph.ReachAvoid g ∅ x y)
    (hclosed : ∀ y ∈ W, ∀ z, g.Step y z → g.hasNode z = true → z ∈ W) :
    ∀ y, y ∈ W ↔ TrajectoryGraph.ReachAvoid g ∅ x y := by
  intro y
  constructor
  · exact fun hy => hsound y hy
  · intro hra
    induction hra with
    | refl _ _ => exact hx
    | tail _ hstep hc _ ih => exact hclosed _ ih _ hstep hc

theorem RA_empty_iff_reach {g : TrajectoryGraph} (hWF : g.WF) {x y : ℕ}
    (hx : g.hasNode x = true) :
    TrajectoryGraph.ReachAvoid g ∅ x y ↔ g.Reach x y := by
  constructor
  · exact TrajectoryGraph.RA_toReach
  · intro hr
    induction hr with
    | refl => exact .refl x hx (Finset.not_mem_empty x)
    | tail _ hstep ih =>
      obtain ⟨eid, heid, e, hfe, rfl⟩ := hstep
      have hT : g.hasNode e.target = true := (hWF.2.2.2.1 e (findEdge_mem hfe)).2.2
      exact .tail ih ⟨eid, heid, e, hfe, rfl⟩ hT (Finset.not_mem_empty _)

/-- C1, amended: for every state `x` present in a well-formed graph,
`prune_branch(x)` marks exactly `x` and the nodes reachable from `x` via
outgoing edges (regardless of edge success) as pruned and returns that set;
nodes not reachable from `x` — in particular strict ancestors of `x` that are
not also descendants — keep their pruned flag, and no other field of the
graph changes; the recursion stops at nodes already pruned *in the same
call*, so it terminates even across cycles; and a second call on the
already-pruned node re-traverses the branch and returns the same full
reachable set while leaving the graph unchanged (idempotence on the graph,
but not an empty/singleton return). -/
theorem prune_branch_spec (g : TrajectoryGraph) (hWF : g.WF) (x : ℕ)
    (hx : g.hasNode x = true) :
    ∃ S : Finset ℕ,
      g.prune_branch x = (g.markSet S, Except.ok S) ∧
      (∀ y, y ∈ S ↔ g.Reach x y) ∧
      (g.markSet S).nodes = g.nodes.map (fun n =>
        if n.state_id ∈ S then { n with is_pruned := true } else n) ∧
      (g.markSet S).edges = g.edges ∧
      (g.markSet S).adjacency = g.adjacency ∧
      (g.markSet S).reverse_adjacency = g.reverse_adjacency ∧
      (g.markSet S).observation_to_state = g.observation_to_state ∧
      (g.markSet S).root_state_id = g.root_state_id ∧
      (g.markSet S).next_node_id = g.next_node_id ∧
      (g.markSet S).next_edge_id = g.next_edge_id ∧
      (g.markSet S).prune_branch x = (g.markSet S, Except.ok S) := by
  have hfu : (((g.nodes.map (fun n => n.state_id)).toFinset \ ∅).card
      < g.nodes.length + 1) := by
    rw [Finset.sdiff_empty]
    have h1 : (g.nodes.map (fun n => n.state_id)).toFinset.card
        ≤ (g.nodes.map (fun n => n.state_id)).length := List.toFinset_card_le _
    rw [List.length_map] at h1
    omega
  obtain ⟨W, heq, _, hroot, hsound, hclosed⟩ :=
    pruneRec_spec g (g.nodes.length + 1) ∅ ∅ x hfu
  rw [TrajectoryGraph.markSet_empty] at heq
  rw [show ((∅ ∪ (W \ ∅)) : Finset ℕ) = W by simp] at heq
  have hxW : x ∈ W := hroot hx (Finset.not_mem_empty x)
  have hiffRA : ∀ y, y ∈ W ↔ TrajectoryGraph.ReachAvoid g ∅ x y :=
    mem_iff_RA hxW (fun y hy => hsound y hy (Finset.not_mem_empty y))
      (fun y hy => hclosed y hy (Finset.not_mem_empty y))
  have hpb1 : g.prune_branch x = (g.markSet W, Except.ok W) := by
    unfold TrajectoryGraph.prune_branch
    rw [if_neg (by simp [hx]), heq]
  obtain ⟨W₂, heq2, _, hroot2, hsound2, hclosed2⟩ :=
    pruneRec_spec g (g.nodes.length + 1) W ∅ x hfu
  have hW2 : W₂ = W := by
    have hx2 : x ∈ W₂ := hroot2 hx (Finset.not_mem_empty x)
    have hiff2 := mem_iff_RA hx2 (fun y hy => hsound2 y hy (Finset.not_mem_empty y))
      (fun y hy => hclosed2 y hy (Finset.not_mem_empty y))
    ext y
    rw [hiff2 y]
    exact (hiffRA y).symm
  have hpb2 : (g.markSet W).prune_branch x = (g.markSet W, Except.ok W) := by
    rw [hW2] at heq2
    rw [show ((W ∪ (W \ ∅)) : Finset ℕ) = W by simp] at heq2
    unfold TrajectoryGraph.prune_branch
    rw [if_neg (by simp [TrajectoryGraph.markSet_hasNode, hx]),
      TrajectoryGraph.markSet_length, heq2]
  refine ⟨W, hpb1, ?_, rfl, rfl, rfl, rfl, rfl, rfl, rfl, rfl, hpb2⟩
  intro y
  rw [hiffRA y]
  exact RA_empty_iff_reach hWF hx

/-- Closed witness for `prune_branch_spec` on the (well-formed) two-node
cycle graph, pruning from state 1. -/
theorem prune_branch_spec_witness :
    ∃ S : Finset ℕ,
      cycleTwoGraph.prune_branch 1 = (cycleTwoGraph.markSet S, Except.ok S) ∧
      (∀ y, y ∈ S ↔ cycleTwoGraph.Reach 1 y) ∧
      (cycleTwoGraph.markSet S).nodes = cycleTwoGraph.nodes.map (fun n =>
        if n.state_id ∈ S then { n with is_pruned := true } else n) ∧
      (cycleTwoGraph.markSet S).edges = cycleTwoGraph.edges ∧
      (cycleTwoGraph.markSet S).adjacency = cycleTwoGraph.adjacency ∧
      (cycleTwoGraph.markSet S).reverse_adjacency = cycleTwoGraph.reverse_adjacency ∧
      (cycleTwoGraph.markSet S).observation_to_state
        = cycleTwoGraph.observation_to_state ∧
      (cycleTwoGraph.markSet S).root_state_id = cycleTwoGraph.root_state_id ∧
      (cycleTwoGraph.markSet S).next_node_id = cycleTwoGraph.next_node_id ∧
      (cycleTwoGraph.markSet S).next_edge_id = cycleTwoGraph.next_edge_id ∧
      (cycleTwoGraph.markSet S).prune_branch 1
        = (cycleTwoGraph.markSet S, Except.ok S) :=
  prune_branch_spec cycleTwoGraph (by decide) 1 (by decide)
